import Mathlib

/-!
Verification of the priotag credential and key-management subsystem.

Byte strings (Python `bytes` and the byte view of `str`) are modelled as
`List Nat` with every element `< 256`.  The AES-GCM AEAD primitive from the
`cryptography` library is modelled as an ideal authenticated cipher: the
ciphertext is a self-delimiting tag binding key and nonce, followed by the
plaintext and an integrity checksum; decryption succeeds exactly on honestly
produced ciphertexts under the same key and nonce.  PBKDF2 is modelled as an
ideal key-derivation function, injective in the (password, salt) pair.
Randomness (`os.urandom`) is passed in as explicit parameters.
Base64 is implemented concretely (RFC 4648 alphabet and padding).
-/

namespace Priotag

/-! ## Base64 (`base64.b64encode` / `base64.b64decode`) -/

/-- Map a 6-bit value to its base64 alphabet character code. -/
def sextetChar (i : Nat) : Nat :=
  if i < 26 then 65 + i
  else if i < 52 then 97 + (i - 26)
  else if i < 62 then 48 + (i - 52)
  else if i = 62 then 43
  else 47

/-- Inverse of `sextetChar` on the base64 alphabet. -/
def charSextet (c : Nat) : Nat :=
  if 65 ≤ c ∧ c ≤ 90 then c - 65
  else if 97 ≤ c ∧ c ≤ 122 then c - 97 + 26
  else if 48 ≤ c ∧ c ≤ 57 then c - 48 + 52
  else if c = 43 then 62
  else if c = 47 then 63
  else 0

/-- Regroup bytes (8-bit) into sextets (6-bit), per base64. -/
def toSextets : List Nat → List Nat
  | [] => []
  | [a] => [a / 4, a % 4 * 16]
  | [a, b] => [a / 4, a % 4 * 16 + b / 16, b % 16 * 4]
  | a :: b :: c :: rest =>
      a / 4 :: (a % 4 * 16 + b / 16) :: (b % 16 * 4 + c / 64) :: c % 64 :: toSextets rest

/-- Regroup sextets back into bytes, per base64. -/
def fromSextets : List Nat → List Nat
  | s1 :: s2 :: s3 :: s4 :: rest =>
      (s1 * 4 + s2 / 16) :: (s2 % 16 * 16 + s3 / 4) :: (s3 % 4 * 64 + s4) :: fromSextets rest
  | [s1, s2] => [s1 * 4 + s2 / 16]
  | [s1, s2, s3] => [s1 * 4 + s2 / 16, s2 % 16 * 16 + s3 / 4]
  | _ => []

/-- `base64.b64encode`: sextet characters followed by `'='` (61) padding. -/
def b64encode (bs : List Nat) : List Nat :=
  (toSextets bs).map sextetChar ++
    (if bs.length % 3 = 1 then [61, 61] else if bs.length % 3 = 2 then [61] else [])

/-- `base64.b64decode`: drop padding, invert the alphabet, regroup bits. -/
def b64decode (cs : List Nat) : List Nat :=
  fromSextets ((cs.filter (· ≠ 61)).map charSextet)

theorem charSextet_sextetChar {i : Nat} (h : i < 64) : charSextet (sextetChar i) = i := by
  simp only [sextetChar, charSextet]
  split_ifs <;> omega

theorem sextetChar_ne_61 (i : Nat) : sextetChar i ≠ 61 := by
  simp only [sextetChar]
  split_ifs <;> omega

theorem toSextets_lt {bs : List Nat} (h : ∀ b ∈ bs, b < 256) :
    ∀ s ∈ toSextets bs, s < 64 := by
  induction bs using toSextets.induct with
  | case1 => simp [toSextets]
  | case2 a =>
      have := h a (by simp)
      simp only [toSextets, List.mem_cons, List.not_mem_nil, or_false]
      rintro s (rfl | rfl) <;> omega
  | case3 a b =>
      have ha := h a (by simp)
      have hb := h b (by simp)
      simp only [toSextets, List.mem_cons, List.not_mem_nil, or_false]
      rintro s (rfl | rfl | rfl) <;> omega
  | case4 a b c rest ih =>
      have ha := h a (by simp)
      have hb := h b (by simp)
      have hc := h c (by simp)
      simp only [toSextets, List.mem_cons]
      rintro s (rfl | rfl | rfl | rfl | hs)
      · omega
      · omega
      · omega
      · omega
      · exact ih (fun x hx => h x (by simp [hx])) s hs

theorem fromSextets_toSextets {bs : List Nat} (h : ∀ b ∈ bs, b < 256) :
    fromSextets (toSextets bs) = bs := by
  induction bs using toSextets.induct with
  | case1 => rfl
  | case2 a =>
      have := h a (by simp)
      simp only [toSextets, fromSextets, List.cons.injEq, and_true]
      omega
  | case3 a b =>
      have ha := h a (by simp)
      have hb := h b (by simp)
      simp only [toSextets, fromSextets, List.cons.injEq, and_true]
      omega
  | case4 a b c rest ih =>
      have ha := h a (by simp)
      have hb := h b (by simp)
      have hc := h c (by simp)
      have hrest := ih (fun x hx => h x (by simp [hx]))
      simp only [toSextets]
      have h4 : ∀ t : List Nat,
          fromSextets (a / 4 :: (a % 4 * 16 + b / 16) :: (b % 16 * 4 + c / 64) :: c % 64 :: t)
            = (a / 4 * 4 + (a % 4 * 16 + b / 16) / 16) ::
              ((a % 4 * 16 + b / 16) % 16 * 16 + (b % 16 * 4 + c / 64) / 4) ::
              ((b % 16 * 4 + c / 64) % 4 * 64 + c % 64) :: fromSextets t := fun _ => rfl
      rw [h4, hrest]
      simp only [List.cons.injEq, and_true]
      refine ⟨?_, ?_, ?_⟩ <;> omega

theorem b64decode_b64encode {bs : List Nat} (h : ∀ b ∈ bs, b < 256) :
    b64decode (b64encode bs) = bs := by
  have hfilter : ((toSextets bs).map sextetChar).filter (· ≠ 61) =
      (toSextets bs).map sextetChar := by
    rw [List.filter_eq_self]
    intro c hc
    obtain ⟨s, _, rfl⟩ := List.mem_map.mp hc
    simpa using sextetChar_ne_61 s
  have hpadfilter : ∀ cs : List Nat, (∀ x ∈ cs, x = 61) →
      ((toSextets bs).map sextetChar ++ cs).filter (· ≠ 61) =
      (toSextets bs).map sextetChar := by
    intro cs hcs
    rw [List.filter_append, hfilter, List.filter_eq_nil_iff.mpr, List.append_nil]
    intro x hx
    simp [hcs x hx]
  have hmap : ((toSextets bs).map sextetChar).map charSextet = toSextets bs := by
    rw [List.map_map]
    have : ∀ s ∈ toSextets bs, (charSextet ∘ sextetChar) s = id s := by
      intro s hs
      exact charSextet_sextetChar (toSextets_lt h s hs)
    rw [List.map_congr_left this, List.map_id]
  unfold b64encode b64decode
  split_ifs with h1 h2
  · rw [hpadfilter [61, 61] (by intro x hx; simpa using hx), hmap,
      fromSextets_toSextets h]
  · rw [hpadfilter [61] (by intro x hx; simpa using hx), hmap,
      fromSextets_toSextets h]
  · rw [List.append_nil, hfilter, hmap, fromSextets_toSextets h]

/-- `b64decode` always produces bytes, whatever its input. -/
theorem b64decode_lt (cs : List Nat) : ∀ b ∈ b64decode cs, b < 256 := by
  have hsex : ∀ s, charSextet s < 64 := by
    intro s
    simp only [charSextet]
    split_ifs <;> omega
  have key : ∀ l : List Nat, (∀ s ∈ l, s < 64) → ∀ b ∈ fromSextets l, b < 256 := by
    intro l
    induction l using fromSextets.induct with
    | case1 s1 s2 s3 s4 rest ih =>
        intro hl b hb
        simp only [fromSextets, List.mem_cons] at hb
        have h1 := hl s1 (by simp)
        have h2 := hl s2 (by simp)
        have h3 := hl s3 (by simp)
        have h4 := hl s4 (by simp)
        rcases hb with rfl | rfl | rfl | hb
        · omega
        · omega
        · omega
        · exact ih (fun x hx => hl x (by simp [hx])) b hb
    | case2 s1 s2 =>
        intro hl b hb
        have h1 := hl s1 (by simp)
        have h2 := hl s2 (by simp)
        simp only [fromSextets, List.mem_cons, List.not_mem_nil, or_false] at hb
        omega
    | case3 s1 s2 s3 =>
        intro hl b hb
        have h1 := hl s1 (by simp)
        have h2 := hl s2 (by simp)
        have h3 := hl s3 (by simp)
        simp only [fromSextets, List.mem_cons, List.not_mem_nil, or_false] at hb
        rcases hb with rfl | rfl <;> omega
    | case4 l h1 h2 h3 =>
        intro _ b hb
        rw [fromSextets] at hb
        · simp at hb
        · exact h1
        · exact h2
        · exact h3
  intro b hb
  refine key _ (fun s hs => ?_) b hb
  obtain ⟨c, _, rfl⟩ := List.mem_map.mp hs
  exact hsex c

/-! ## Ideal AES-GCM

`AESGCM(key).encrypt(nonce, data, None)` and `.decrypt(nonce, ct, None)` are
modelled as an ideal AEAD: the ciphertext consists of a self-delimiting tag
binding the key and the nonce, the plaintext, and a one-byte integrity
checksum.  Decryption succeeds exactly on honestly produced ciphertexts for
the same key and nonce (ideal authentication); the checksum makes every
single-byte corruption detectable, matching the `InvalidTag` behaviour of the
real AEAD. -/

/-- Self-delimiting encoding of (key, nonce), prepended to the plaintext. -/
def tagOf (key nonce : List Nat) : List Nat :=
  List.replicate key.length 1 ++ 0 ::
    (key ++ (List.replicate nonce.length 1 ++ 0 :: nonce))

/-- Ideal-model `AESGCM(key).encrypt(nonce, pt, None)`. -/
def aesgcmEncrypt (key nonce pt : List Nat) : List Nat :=
  (tagOf key nonce ++ pt) ++ [(tagOf key nonce ++ pt).sum % 256]

/-- Ideal-model `AESGCM(key).decrypt(nonce, ct, None)`; `none` is the
`InvalidTag` exception. -/
def aesgcmDecrypt (key nonce ct : List Nat) : Option (List Nat) :=
  if ct.take (tagOf key nonce).length = tagOf key nonce ∧
      (tagOf key nonce).length < ct.length ∧
      ct = ct.dropLast ++ [ct.dropLast.sum % 256]
  then some (ct.dropLast.drop (tagOf key nonce).length)
  else none

theorem replicate_one_zero_inj :
    ∀ {m m' : Nat} {xs ys : List Nat},
      List.replicate m 1 ++ 0 :: xs = List.replicate m' 1 ++ 0 :: ys →
      m = m' ∧ xs = ys := by
  intro m
  induction m with
  | zero =>
      intro m' xs ys h
      cases m' with
      | zero => simpa using h
      | succ k => simp [List.replicate_succ] at h
  | succ k ih =>
      intro m' xs ys h
      cases m' with
      | zero => simp [List.replicate_succ] at h
      | succ j =>
          simp only [List.replicate_succ, List.cons_append, List.cons.injEq, true_and] at h
          obtain ⟨h1, h2⟩ := ih h
          exact ⟨by omega, h2⟩

theorem tagOf_append_inj {k1 n1 k2 n2 : List Nat} {a b : List Nat}
    (h : tagOf k1 n1 ++ a = tagOf k2 n2 ++ b) :
    k1 = k2 ∧ n1 = n2 ∧ a = b := by
  unfold tagOf at h
  simp only [List.append_assoc, List.cons_append] at h
  obtain ⟨hlen, hrest⟩ := replicate_one_zero_inj h
  obtain ⟨hk, hrest2⟩ := List.append_inj hrest hlen
  obtain ⟨hnlen, hrest3⟩ := replicate_one_zero_inj hrest2
  obtain ⟨hn, hab⟩ := List.append_inj hrest3 hnlen
  exact ⟨hk, hn, hab⟩

theorem concat_inj {l1 l2 : List Nat} {x y : Nat}
    (h : l1 ++ [x] = l2 ++ [y]) : l1 = l2 ∧ x = y := by
  have hlen : l1.length = l2.length := by
    have := congrArg List.length h
    simp only [List.length_append, List.length_cons, List.length_nil] at this
    omega
  obtain ⟨h1, h2⟩ := List.append_inj h hlen
  exact ⟨h1, by simpa using h2⟩

theorem aesgcmEncrypt_inj {k1 n1 p1 k2 n2 p2 : List Nat}
    (h : aesgcmEncrypt k1 n1 p1 = aesgcmEncrypt k2 n2 p2) :
    k1 = k2 ∧ n1 = n2 ∧ p1 = p2 := by
  unfold aesgcmEncrypt at h
  obtain ⟨hbody, _⟩ := concat_inj h
  exact tagOf_append_inj hbody

/-- Decryption correctness: decrypting an honest ciphertext recovers the
plaintext. -/
theorem aesgcmDecrypt_aesgcmEncrypt (key nonce pt : List Nat) :
    aesgcmDecrypt key nonce (aesgcmEncrypt key nonce pt) = some pt := by
  unfold aesgcmDecrypt aesgcmEncrypt
  rw [if_pos]
  · rw [List.dropLast_concat, List.drop_left]
  · refine ⟨?_, ?_, ?_⟩
    · rw [List.append_assoc, List.take_left]
    · simp only [List.length_append, List.length_cons, List.length_nil]
      omega
    · rw [List.dropLast_concat]

/-- Authentication soundness: decryption succeeds only on the honest
ciphertext for that key, nonce and plaintext. -/
theorem aesgcmDecrypt_sound {key nonce ct pt : List Nat}
    (h : aesgcmDecrypt key nonce ct = some pt) :
    ct = aesgcmEncrypt key nonce pt := by
  unfold aesgcmDecrypt at h
  split_ifs at h with hc
  · obtain ⟨h1, h2, h3⟩ := hc
    have hpt : pt = ct.dropLast.drop (tagOf key nonce).length := by
      simpa using h.symm
    have hdllen : (tagOf key nonce).length ≤ ct.dropLast.length := by
      rw [List.length_dropLast]
      omega
    have hdltake : ct.dropLast.take (tagOf key nonce).length = tagOf key nonce := by
      rw [List.dropLast_eq_take, List.take_take]
      have : min (tagOf key nonce).length (ct.length - 1) = (tagOf key nonce).length := by
        omega
      rw [this, h1]
    have hbody : ct.dropLast = tagOf key nonce ++ pt := by
      have hsplit := (List.take_append_drop (tagOf key nonce).length ct.dropLast).symm
      rw [hdltake] at hsplit
      rw [hpt]
      exact hsplit
    unfold aesgcmEncrypt
    rw [← hbody]
    exact h3

/-- Decrypting under a different key always fails. -/
theorem aesgcmDecrypt_wrong_key {k1 k2 n1 n2 pt : List Nat} (hne : k1 ≠ k2) :
    aesgcmDecrypt k2 n2 (aesgcmEncrypt k1 n1 pt) = none := by
  cases h : aesgcmDecrypt k2 n2 (aesgcmEncrypt k1 n1 pt) with
  | none => rfl
  | some pt2 =>
      have := aesgcmDecrypt_sound h
      exact absurd (aesgcmEncrypt_inj this).1 hne

/-- Decrypting under a different nonce always fails. -/
theorem aesgcmDecrypt_wrong_nonce {k1 k2 n1 n2 pt : List Nat} (hne : n1 ≠ n2) :
    aesgcmDecrypt k2 n2 (aesgcmEncrypt k1 n1 pt) = none := by
  cases h : aesgcmDecrypt k2 n2 (aesgcmEncrypt k1 n1 pt) with
  | none => rfl
  | some pt2 =>
      have := aesgcmDecrypt_sound h
      exact absurd (aesgcmEncrypt_inj this).2.1 hne

theorem tagOf_lt {key nonce : List Nat} (hk : ∀ b ∈ key, b < 256)
    (hn : ∀ b ∈ nonce, b < 256) : ∀ b ∈ tagOf key nonce, b < 256 := by
  intro b hb
  unfold tagOf at hb
  simp only [List.mem_append, List.mem_cons, List.mem_replicate] at hb
  rcases hb with ⟨_, rfl⟩ | rfl | hb2
  · omega
  · omega
  · rcases hb2 with hb3 | ⟨_, rfl⟩ | rfl | hb4
    · exact hk b hb3
    · omega
    · omega
    · exact hn b hb4

theorem aesgcmEncrypt_lt {key nonce pt : List Nat} (hk : ∀ b ∈ key, b < 256)
    (hn : ∀ b ∈ nonce, b < 256) (hp : ∀ b ∈ pt, b < 256) :
    ∀ b ∈ aesgcmEncrypt key nonce pt, b < 256 := by
  intro b hb
  unfold aesgcmEncrypt at hb
  simp only [List.mem_append, List.mem_cons, List.not_mem_nil, or_false] at hb
  rcases hb with (hb1 | hb2) | rfl
  · exact tagOf_lt hk hn b hb1
  · exact hp b hb2
  · omega

theorem sum_set (l : List Nat) (j v : Nat) (hj : j < l.length) :
    (l.set j v).sum + l.getD j 0 = l.sum + v := by
  induction l generalizing j with
  | nil => simp at hj
  | cons a t ih =>
      cases j with
      | zero => simp [List.set, List.getD]; omega
      | succ k =>
          have hk : k < t.length := by simpa using hj
          have := ih k hk
          simp only [List.set, List.sum_cons, List.getD_cons_succ]
          omega

theorem set_append_left (l r : List Nat) (j v : Nat) (hj : j < l.length) :
    (l ++ r).set j v = l.set j v ++ r := by
  induction l generalizing j with
  | nil => simp at hj
  | cons a t ih =>
      cases j with
      | zero => simp [List.set]
      | succ k =>
          have hk : k < t.length := by simpa using hj
          simp [List.set, ih k hk]

theorem set_concat_length (l : List Nat) (x v : Nat) :
    (l ++ [x]).set l.length v = l ++ [v] := by
  induction l with
  | nil => simp [List.set]
  | cons a t ih => simp [List.set, ih]

/-- Tampering with any single byte of an honest ciphertext makes decryption
fail (authentication). -/
theorem aesgcmDecrypt_set {key nonce pt : List Nat}
    (hk : ∀ b ∈ key, b < 256) (hn : ∀ b ∈ nonce, b < 256) (hp : ∀ b ∈ pt, b < 256)
    {j v : Nat} (hj : j < (aesgcmEncrypt key nonce pt).length) (hv : v < 256)
    (hne : v ≠ (aesgcmEncrypt key nonce pt).getD j 0) :
    aesgcmDecrypt key nonce ((aesgcmEncrypt key nonce pt).set j v) = none := by
  set body := tagOf key nonce ++ pt with hbodydef
  have hbl : ∀ b ∈ body, b < 256 := by
    intro b hb
    rcases List.mem_append.mp hb with hb1 | hb2
    · exact tagOf_lt hk hn b hb1
    · exact hp b hb2
  have henc : aesgcmEncrypt key nonce pt = body ++ [body.sum % 256] := rfl
  have hlen : (aesgcmEncrypt key nonce pt).length = body.length + 1 := by
    rw [henc]; simp
  by_cases hcase : j < body.length
  · -- corruption inside the tag-or-plaintext region: checksum must break
    have hset : (aesgcmEncrypt key nonce pt).set j v = body.set j v ++ [body.sum % 256] := by
      rw [henc]
      exact set_append_left _ _ _ _ hcase
    cases h : aesgcmDecrypt key nonce ((aesgcmEncrypt key nonce pt).set j v) with
    | none => rfl
    | some pt2 =>
        exfalso
        have hsound := aesgcmDecrypt_sound h
        rw [hset] at hsound
        unfold aesgcmEncrypt at hsound
        obtain ⟨hb2, hchk⟩ := concat_inj hsound
        have hsum := sum_set body j v hcase
        have hold : body.getD j 0 < 256 := by
          have : body.getD j 0 ∈ body := by
            rw [List.getD_eq_getElem _ _ hcase]
            exact List.getElem_mem hcase
          exact hbl _ this
        have hnev : v ≠ body.getD j 0 := by
          rw [henc, List.getD_append _ _ _ _ hcase] at hne
          exact hne
        rw [← hb2] at hchk
        omega
  · -- corruption of the checksum byte itself
    have hjeq : j = body.length := by omega
    have hset : (aesgcmEncrypt key nonce pt).set j v = body ++ [v] := by
      rw [henc, hjeq]
      exact set_concat_length _ _ _
    have hnechk : v ≠ body.sum % 256 := by
      rw [henc, hjeq, List.getD_append_right _ _ _ _ (le_refl _)] at hne
      simpa using hne
    cases h : aesgcmDecrypt key nonce ((aesgcmEncrypt key nonce pt).set j v) with
    | none => rfl
    | some pt2 =>
        exfalso
        have hsound := aesgcmDecrypt_sound h
        rw [hset] at hsound
        unfold aesgcmEncrypt at hsound
        obtain ⟨hb2, hchk⟩ := concat_inj hsound
        have : (tagOf key nonce ++ pt2).sum = body.sum := by rw [← hb2]
        rw [hchk] at hnechk
        omega

/-! ## `EncryptionManager` (src/backend/src/priotag/services/encryption.py)

`os.urandom` draws (salt, nonce, server part) are explicit parameters.
PBKDF2 (`derive_key_from_password`) is modelled as an ideal KDF, injective in
the (password, salt) pair; `change_password` returns the Python dict as an
association list so that the absence of an `admin_wrapped_dek` entry is
expressible. -/

namespace EncryptionManager

/-- `derive_key_from_password(password, salt)`: ideal PBKDF2-HMAC-SHA256, a
deterministic key derivation injective in (password, salt). -/
def derive_key_from_password (password salt : List Nat) : List Nat :=
  List.replicate password.length 1 ++ 0 :: (password ++ salt)

/-- `encrypt_data(data, key)` with the `os.urandom(12)` nonce explicit:
base64 of nonce ‖ AES-GCM ciphertext. -/
def encrypt_data (data key nonce : List Nat) : List Nat :=
  b64encode (nonce ++ aesgcmEncrypt key nonce data)

/-- `decrypt_data(encrypted_data, key)`: base64-decode, split the first 12
bytes as nonce, AES-GCM decrypt; `none` is the `InvalidTag` exception. -/
def decrypt_data (encryptedData key : List Nat) : Option (List Nat) :=
  let encrypted := b64decode encryptedData
  aesgcmDecrypt key (encrypted.take 12) (encrypted.drop 12)

/-- `get_user_dek(password, salt, user_wrapped_dek)`. -/
def get_user_dek (password salt uwd : List Nat) : Option (List Nat) :=
  (decrypt_data uwd (derive_key_from_password password (b64decode salt))).map b64decode

/-- `change_password(old_password, new_password, salt, user_wrapped_dek)`
with the fresh salt and fresh AES-GCM nonce explicit; the result dict is an
association list (note: no `admin_wrapped_dek` entry). -/
def change_password (oldPassword newPassword salt uwd newSalt nonce : List Nat) :
    Option (List (String × List Nat)) :=
  (get_user_dek oldPassword salt uwd).map fun dek =>
    let newPasswordKey := derive_key_from_password newPassword newSalt
    let newUwd := encrypt_data (b64encode dek) newPasswordKey nonce
    [("salt", b64encode newSalt), ("user_wrapped_dek", newUwd)]

/-- `split_dek(dek)` with the `os.urandom(len(dek))` server part explicit. -/
def split_dek (dek serverPartBytes : List Nat) : List Nat × List Nat :=
  let clientPartBytes := List.zipWith (fun a b => a ^^^ b) dek serverPartBytes
  (b64encode serverPartBytes, b64encode clientPartBytes)

/-- `reconstruct_dek(server_part, client_part)`: XOR of the decoded parts. -/
def reconstruct_dek (serverPart clientPart : List Nat) : List Nat :=
  List.zipWith (fun a b => a ^^^ b) (b64decode serverPart) (b64decode clientPart)

/-- `encrypt_dek_part(dek_part)` with the server cache key and nonce explicit. -/
def encrypt_dek_part (dekPart serverKey nonce : List Nat) : List Nat :=
  encrypt_data dekPart serverKey nonce

/-- `decrypt_dek_part(encrypted_dek_part)` with the server cache key explicit. -/
def decrypt_dek_part (encryptedDekPart serverKey : List Nat) : Option (List Nat) :=
  decrypt_data encryptedDekPart serverKey

end EncryptionManager

theorem derive_lt {password salt : List Nat} (hp : ∀ b ∈ password, b < 256)
    (hs : ∀ b ∈ salt, b < 256) :
    ∀ b ∈ EncryptionManager.derive_key_from_password password salt, b < 256 := by
  intro b hb
  unfold EncryptionManager.derive_key_from_password at hb
  simp only [List.mem_append, List.mem_cons, List.mem_replicate] at hb
  rcases hb with ⟨_, rfl⟩ | rfl | hb1 | hb2
  · omega
  · omega
  · exact hp b hb1
  · exact hs b hb2

theorem derive_inj {p1 s1 p2 s2 : List Nat}
    (h : EncryptionManager.derive_key_from_password p1 s1 =
      EncryptionManager.derive_key_from_password p2 s2) : p1 = p2 ∧ s1 = s2 := by
  unfold EncryptionManager.derive_key_from_password at h
  obtain ⟨hlen, hrest⟩ := replicate_one_zero_inj h
  exact List.append_inj hrest hlen

/-- Round-trip of the string-level cipher wrappers. -/
theorem decrypt_data_encrypt_data {data key nonce : List Nat}
    (hnlen : nonce.length = 12) (hn : ∀ b ∈ nonce, b < 256)
    (hk : ∀ b ∈ key, b < 256) (hd : ∀ b ∈ data, b < 256) :
    EncryptionManager.decrypt_data (EncryptionManager.encrypt_data data key nonce) key =
      some data := by
  unfold EncryptionManager.encrypt_data EncryptionManager.decrypt_data
  have hbytes : ∀ b ∈ nonce ++ aesgcmEncrypt key nonce data, b < 256 := by
    intro b hb
    rcases List.mem_append.mp hb with hb1 | hb2
    · exact hn b hb1
    · exact aesgcmEncrypt_lt hk hn hd b hb2
  rw [b64decode_b64encode hbytes]
  rw [← hnlen]
  simp only [List.take_left, List.drop_left]
  exact aesgcmDecrypt_aesgcmEncrypt key nonce data

/-- Decrypting a blob under a different key always fails. -/
theorem decrypt_data_wrong_key {data key key2 nonce : List Nat}
    (hnlen : nonce.length = 12) (hn : ∀ b ∈ nonce, b < 256)
    (hk : ∀ b ∈ key, b < 256) (hd : ∀ b ∈ data, b < 256)
    (hne : key ≠ key2) :
    EncryptionManager.decrypt_data (EncryptionManager.encrypt_data data key nonce) key2 =
      none := by
  unfold EncryptionManager.encrypt_data EncryptionManager.decrypt_data
  have hbytes : ∀ b ∈ nonce ++ aesgcmEncrypt key nonce data, b < 256 := by
    intro b hb
    rcases List.mem_append.mp hb with hb1 | hb2
    · exact hn b hb1
    · exact aesgcmEncrypt_lt hk hn hd b hb2
  rw [b64decode_b64encode hbytes]
  rw [← hnlen]
  simp only [List.take_left, List.drop_left]
  exact aesgcmDecrypt_wrong_key hne

/-! ## Session store and validator
(src/backend/src/priotag/utils.py, src/backend/src/priotag/api/routes/auth.py)

Redis is modelled as an association list of entries with optional TTL; keys
are structured (the f-string key formats are injective).  External calls
(PocketBase auth-refresh, auth-with-password, record fetch/patch) are oracle
parameters.  The fire-and-forget `update_last_seen` task does not affect the
response or the session/blacklist keys and is omitted. -/

structure SessionInfo where
  id : String
  username : String
  role : String
  institution_id : String
  is_admin : Bool
deriving DecidableEq

inductive RKey where
  | session (token : String)
  | blacklist (token : String)
  | rateIp (ip : String)
  | rateIdentity (identity : String)
  | dek (userId token : String)
deriving DecidableEq

structure DekCacheInfo where
  encrypted_server_part : List Nat
  last_accessed : String
deriving DecidableEq

inductive RVal where
  | sess (si : SessionInfo)
  | mark (s : String)
  | count (n : Nat)
  | dekCache (ci : DekCacheInfo)
deriving DecidableEq

structure RedisEntry where
  key : RKey
  val : RVal
  ttl : Option Nat
deriving DecidableEq

abbrev RedisState := List RedisEntry

def rfind (st : RedisState) (k : RKey) : Option RedisEntry :=
  st.find? (fun e => e.key == k)

def rget (st : RedisState) (k : RKey) : Option RVal :=
  (rfind st k).map (fun e => e.val)

def rexists (st : RedisState) (k : RKey) : Bool :=
  (rget st k).isSome

def rttl (st : RedisState) (k : RKey) : Option Nat :=
  (rfind st k).bind (fun e => e.ttl)

def rdel (st : RedisState) (k : RKey) : RedisState :=
  st.filter (fun e => e.key != k)

def rsetex (st : RedisState) (k : RKey) (v : RVal) (ttl : Nat) : RedisState :=
  ⟨k, v, some ttl⟩ :: rdel st k

def counterVal (st : RedisState) (k : RKey) : Nat :=
  match rget st k with
  | some (.count n) => n
  | _ => 0

def rincr (st : RedisState) (k : RKey) : RedisState :=
  ⟨k, .count (counterVal st k + 1), (rfind st k).bind (fun e => e.ttl)⟩ :: rdel st k

def rexpire (st : RedisState) (k : RKey) (t : Nat) : RedisState :=
  st.map (fun e => if e.key = k then { e with ttl := some t } else e)

structure UserRecord where
  id : String
  username : String
  role : String
  institution_id : String
  salt : List Nat
  user_wrapped_dek : List Nat
deriving DecidableEq

/-- `extract_session_info_from_record` (utils.py). -/
def extract_session_info_from_record (r : UserRecord) : SessionInfo :=
  { id := r.id, username := r.username, role := r.role,
    institution_id := r.institution_id,
    is_admin := r.role == "institution_admin" || r.role == "super_admin" }

/-- Outcome of the PocketBase `auth-refresh` call. -/
inductive PBRefresh where
  | reject
  | unavailable
  | ok (newToken : String) (record : UserRecord)
deriving DecidableEq

inductive VerifyResult where
  | ok (si : SessionInfo) (newCookieToken : Option String)
  | err (code : Nat)
deriving DecidableEq

/-- TTL chosen by `verify_token` when restoring a session: 15 minutes for
admins, otherwise 8 hours ("Default to session mode when restoring"). -/
def verifyTTL (admin : Bool) : Nat := if admin then 900 else 8 * 3600

/-- `verify_token` (utils.py).  `blacklistCheckFails`/`sessionGetFails`
represent Redis exceptions at the corresponding call (both caught by the
code); `pb` is the auth-refresh outcome used on cache miss. -/
def verify_token (token : String) (blacklistCheckFails sessionGetFails : Bool)
    (st : RedisState) (pb : PBRefresh) : VerifyResult × RedisState :=
  if !blacklistCheckFails && rexists st (.blacklist token) then (.err 401, st)
  else
    let cached := if sessionGetFails then none else rget st (.session token)
    match cached with
    | some (.sess si) => (.ok si none, st)
    | _ =>
      match pb with
      | .reject => (.err 401, st)
      | .unavailable => (.err 503, st)
      | .ok newToken rec =>
        let si := extract_session_info_from_record rec
        let ttl := verifyTTL si.is_admin
        if newToken ≠ token then
          (.ok si (some newToken),
            rsetex (rdel st (.session token)) (.session newToken) (.sess si) ttl)
        else
          (.ok si none, rsetex st (.session token) (.sess si) ttl)

/-- `logout_user` (auth.py): delete the session, blacklist the token for the
maximum token lifetime (30 days). -/
def logout_user (token : String) (st : RedisState) : RedisState :=
  rsetex (rdel st (.session token)) (.blacklist token) (.mark "1") (30 * 24 * 3600)

inductive LoginResult where
  | ok (token : String)
  | err (code : Nat)
deriving DecidableEq

/-- `login_user` (auth.py): rate limiting, PocketBase password auth (oracle),
service-role rejection, DEK unwrap, blacklist removal for the issued token,
and session creation with mode/role dependent TTL. -/
def login_user (identity : String) (password : List Nat) (keepLoggedIn : Bool)
    (clientIp : String) (st : RedisState) (pbAuth : Option (String × UserRecord)) :
    LoginResult × RedisState :=
  if counterVal st (.rateIp clientIp) ≥ 5 then (.err 429, st)
  else if counterVal st (.rateIdentity identity) ≥ 5 then (.err 429, st)
  else
    let st1 := rexpire (rincr st (.rateIp clientIp)) (.rateIp clientIp) 60
    let st2 := rexpire (rincr st1 (.rateIdentity identity)) (.rateIdentity identity) 60
    match pbAuth with
    | none => (.err 401, st2)
    | some (token, rec) =>
      if rec.role = "service" then (.err 403, st2)
      else
        let st3 := rdel (rdel st2 (.rateIp clientIp)) (.rateIdentity identity)
        match EncryptionManager.get_user_dek password rec.salt rec.user_wrapped_dek with
        | none => (.err 500, st3)
        | some _dek =>
          let st4 := rdel st3 (.blacklist token)
          let si := extract_session_info_from_record rec
          let ttl := if si.is_admin then 900
            else if keepLoggedIn then 30 * 24 * 3600 else 8 * 3600
          (.ok token, rsetex st4 (.session token) (.sess si) ttl)

/-- Oracle for the change-password route: the user-record fetch, the record
patch, and the re-authentication with the new password. -/
structure ChangePwOracle where
  userFetch : Option (List Nat × List Nat)
  patchOk : Bool
  authToken : Option String
deriving DecidableEq

inductive ChangePwResult where
  | ok (newToken : String)
  | err (code : Nat)
deriving DecidableEq

def matchesUser (v : RVal) (uid : String) : Bool :=
  match v with
  | .sess si => si.id == uid
  | _ => false

/-- The scan-and-delete loop of the change-password route: delete every
`session:*` key other than the current one whose stored user id matches. -/
def invalidate_user_sessions (st : RedisState) (uid : String) (curToken : String) :
    RedisState :=
  st.filter (fun e =>
    match e.key with
    | .session t => !(t != curToken && matchesUser e.val uid)
    | _ => true)

/-- `change_password` route (auth.py): verify the current password, re-wrap
the DEK, patch the record, re-authenticate, invalidate the user sessions
(current token included), create exactly one session under the new token. -/
def change_password_route (currentPassword newPassword : List Nat)
    (current : SessionInfo) (token : String) (st : RedisState)
    (o : ChangePwOracle) (newSalt nonce : List Nat) : ChangePwResult × RedisState :=
  match o.userFetch with
  | none => (.err 500, st)
  | some (salt, uwd) =>
    match EncryptionManager.get_user_dek currentPassword salt uwd with
    | none => (.err 400, st)
    | some _ =>
      match EncryptionManager.change_password currentPassword newPassword salt uwd
          newSalt nonce with
      | none => (.err 500, st)
      | some updated =>
        if !o.patchOk then (.err 500, st)
        else
          match o.authToken with
          | none => (.err 500, st)
          | some newToken =>
            let st1 := invalidate_user_sessions st current.id token
            let st2 := rdel st1 (.session token)
            let ttl := if current.is_admin then 900 else 8 * 3600
            let st3 := rsetex st2 (.session newToken) (.sess current) ttl
            match updated.lookup "salt", updated.lookup "user_wrapped_dek" with
            | some ns, some nuwd =>
              match EncryptionManager.get_user_dek newPassword ns nuwd with
              | none => (.err 500, st3)
              | some _ => (.ok newToken, st3)
            | _, _ => (.err 500, st3)

inductive Tier where
  | high
  | balanced
  | convenience
deriving DecidableEq

/-- `get_dek_from_request` (encryption.py), with the process-wide server
cache key and the `datetime.now()` timestamp explicit. -/
def get_dek_from_request (dekOrClientPart : List Nat) (userId token : String)
    (tier : Tier) (st : RedisState) (serverKey : List Nat) (now : String) :
    Except String (List Nat) × RedisState :=
  match tier with
  | .balanced =>
    match rget st (.dek userId token) with
    | none => (.error "DEK cache expired or not found. Please re-authenticate.", st)
    | some (.dekCache ci) =>
      match EncryptionManager.decrypt_dek_part ci.encrypted_server_part serverKey with
      | none => (.error "InvalidTag", st)
      | some serverPart =>
        let dek := EncryptionManager.reconstruct_dek serverPart dekOrClientPart
        let ci2 : DekCacheInfo := { ci with last_accessed := now }
        (.ok dek, rsetex st (.dek userId token) (.dekCache ci2) 1800)
    | some _ => (.error "invalid cache entry", st)
  | _ => (.ok (b64decode dekOrClientPart), st)

/-- The operations of the subsystem that touch the session store. -/
inductive SysOp where
  | opLogin (identity : String) (password : List Nat) (keep : Bool) (ip : String)
      (pbAuth : Option (String × UserRecord))
  | opLogout (token : String)
  | opVerify (token : String) (blFail getFail : Bool) (pb : PBRefresh)
  | opChangePw (curPw newPw : List Nat) (cur : SessionInfo) (token : String)
      (o : ChangePwOracle) (newSalt nonce : List Nat)

/-- State transition of one subsystem operation. -/
def stepState (st : RedisState) : SysOp → RedisState
  | .opLogin identity pw keep ip o => (login_user identity pw keep ip st o).2
  | .opLogout t => logout_user t st
  | .opVerify t b g pb => (verify_token t b g st pb).2
  | .opChangePw a b c t o ns nn => (change_password_route a b c t st o ns nn).2

/-! ## Redis state lemmas -/

theorem rfind_cons {e : RedisEntry} {st : RedisState} {k : RKey} :
    rfind (e :: st) k = if e.key = k then some e else rfind st k := by
  unfold rfind
  rw [List.find?_cons]
  by_cases h : e.key = k
  · have hb : (e.key == k) = true := by simp [h]
    simp [hb, h]
  · have hb : (e.key == k) = false := by simp [h]
    simp [hb, h, rfind]

theorem rfind_filter {p : RedisEntry → Bool} {st : RedisState} {k : RKey}
    (hp : ∀ e : RedisEntry, e.key = k → p e = true) :
    rfind (st.filter p) k = rfind st k := by
  induction st with
  | nil => rfl
  | cons e t ih =>
      by_cases hpe : p e = true
      · rw [List.filter_cons_of_pos hpe, rfind_cons, rfind_cons]
        by_cases hk : e.key = k <;> simp [hk, ih]
      · have hek : e.key ≠ k := fun h => hpe (hp e h)
        rw [List.filter_cons_of_neg (by simpa using hpe), rfind_cons]
        simp [hek, ih]

theorem rfind_rdel_ne {st : RedisState} {k k' : RKey} (h : k ≠ k') :
    rfind (rdel st k) k' = rfind st k' := by
  unfold rdel
  apply rfind_filter
  intro e he
  simp [he, Ne.symm h]

theorem rfind_rdel_self {st : RedisState} {k : RKey} :
    rfind (rdel st k) k = none := by
  unfold rdel rfind
  rw [List.find?_eq_none]
  intro e he
  have := (List.mem_filter.mp he).2
  simpa using this

theorem rfind_rsetex_self {st : RedisState} {k : RKey} {v : RVal} {t : Nat} :
    rfind (rsetex st k v t) k = some ⟨k, v, some t⟩ := by
  unfold rsetex
  rw [rfind_cons]
  simp

theorem rfind_rsetex_ne {st : RedisState} {k k' : RKey} {v : RVal} {t : Nat}
    (h : k ≠ k') : rfind (rsetex st k v t) k' = rfind st k' := by
  unfold rsetex
  rw [rfind_cons]
  simp only [h, if_false]
  exact rfind_rdel_ne h

theorem rfind_rincr_ne {st : RedisState} {k k' : RKey} (h : k ≠ k') :
    rfind (rincr st k) k' = rfind st k' := by
  unfold rincr
  rw [rfind_cons]
  simp only [h, if_false]
  exact rfind_rdel_ne h

theorem rget_rexpire {st : RedisState} {k k' : RKey} {t : Nat} :
    rget (rexpire st k t) k' = rget st k' := by
  induction st with
  | nil => rfl
  | cons e s ih =>
      simp only [rexpire, List.map_cons]
      by_cases he : e.key = k
      · simp only [he, if_pos rfl]
        unfold rget
        rw [rfind_cons, rfind_cons]
        by_cases hk : e.key = k' <;> simp_all [rget, rexpire]
      · simp only [if_neg he]
        unfold rget
        rw [rfind_cons, rfind_cons]
        by_cases hk : e.key = k' <;> simp_all [rget, rexpire]

theorem rexists_rexpire {st : RedisState} {k k' : RKey} {t : Nat} :
    rexists (rexpire st k t) k' = rexists st k' := by
  unfold rexists
  rw [rget_rexpire]

theorem rget_rsetex_self {st : RedisState} {k : RKey} {v : RVal} {t : Nat} :
    rget (rsetex st k v t) k = some v := by
  unfold rget
  rw [rfind_rsetex_self]
  rfl

theorem rget_rsetex_ne {st : RedisState} {k k' : RKey} {v : RVal} {t : Nat}
    (h : k ≠ k') : rget (rsetex st k v t) k' = rget st k' := by
  unfold rget
  rw [rfind_rsetex_ne h]

theorem rget_rdel_ne {st : RedisState} {k k' : RKey} (h : k ≠ k') :
    rget (rdel st k) k' = rget st k' := by
  unfold rget
  rw [rfind_rdel_ne h]

theorem rget_rdel_self {st : RedisState} {k : RKey} :
    rget (rdel st k) k = none := by
  unfold rget
  rw [rfind_rdel_self]
  rfl

theorem rget_rincr_ne {st : RedisState} {k k' : RKey} (h : k ≠ k') :
    rget (rincr st k) k' = rget st k' := by
  unfold rget
  rw [rfind_rincr_ne h]

theorem rexists_rsetex_self {st : RedisState} {k : RKey} {v : RVal} {t : Nat} :
    rexists (rsetex st k v t) k = true := by
  unfold rexists
  rw [rget_rsetex_self]
  rfl

theorem rexists_rsetex_ne {st : RedisState} {k k' : RKey} {v : RVal} {t : Nat}
    (h : k ≠ k') : rexists (rsetex st k v t) k' = rexists st k' := by
  unfold rexists
  rw [rget_rsetex_ne h]

theorem rexists_rdel_ne {st : RedisState} {k k' : RKey} (h : k ≠ k') :
    rexists (rdel st k) k' = rexists st k' := by
  unfold rexists
  rw [rget_rdel_ne h]

theorem rexists_rincr_ne {st : RedisState} {k k' : RKey} (h : k ≠ k') :
    rexists (rincr st k) k' = rexists st k' := by
  unfold rexists
  rw [rget_rincr_ne h]

theorem rttl_rsetex_self {st : RedisState} {k : RKey} {v : RVal} {t : Nat} :
    rttl (rsetex st k v t) k = some t := by
  unfold rttl
  rw [rfind_rsetex_self]
  rfl

theorem rget_invalidate_not_session {st : RedisState} {uid curToken : String}
    {k : RKey} (h : ∀ t : String, k ≠ .session t) :
    rget (invalidate_user_sessions st uid curToken) k = rget st k := by
  unfold rget invalidate_user_sessions
  rw [rfind_filter]
  intro e he
  cases hk : e.key with
  | session t =>
      rw [hk] at he
      exact absurd he.symm (h t)
  | blacklist t => simp [hk]
  | rateIp s => simp [hk]
  | rateIdentity s => simp [hk]
  | dek a b => simp [hk]

/-! ## Supporting lemmas for the cryptographic claims -/

theorem sextetChar_lt (i : Nat) : sextetChar i < 256 := by
  simp only [sextetChar]
  split_ifs <;> omega

theorem b64encode_lt (bs : List Nat) : ∀ c ∈ b64encode bs, c < 256 := by
  intro c hc
  unfold b64encode at hc
  rcases List.mem_append.mp hc with h1 | h2
  · obtain ⟨s, _, rfl⟩ := List.mem_map.mp h1
    exact sextetChar_lt s
  · split_ifs at h2 <;> simp_all

theorem zipWith_xor_cancel :
    ∀ (dek r : List Nat), r.length = dek.length →
      List.zipWith (fun a b => a ^^^ b) r (List.zipWith (fun a b => a ^^^ b) dek r) = dek := by
  intro dek
  induction dek with
  | nil => intro r h; simp
  | cons d t ih =>
      intro r h
      cases r with
      | nil => simp at h
      | cons a s =>
          simp only [List.zipWith_cons_cons, List.cons.injEq]
          constructor
          · rw [Nat.xor_comm d a]
            exact Nat.xor_cancel_left a d
          · exact ih s (by simpa using h)

theorem zipWith_xor_lt : ∀ {l r : List Nat}, (∀ b ∈ l, b < 256) → (∀ b ∈ r, b < 256) →
    ∀ b ∈ List.zipWith (fun a b => a ^^^ b) l r, b < 256 := by
  intro l
  induction l with
  | nil => intro r _ _ b hb; simp at hb
  | cons x t ih =>
      intro r hl hr b hb
      cases r with
      | nil => simp at hb
      | cons y s =>
          simp only [List.zipWith_cons_cons, List.mem_cons] at hb
          rcases hb with rfl | hb2
          · have h1 : x < 2 ^ 8 := hl x (by simp)
            have h2 : y < 2 ^ 8 := hr y (by simp)
            exact Nat.xor_lt_two_pow h1 h2
          · exact ih (fun z hz => hl z (by simp [hz])) (fun z hz => hr z (by simp [hz])) b hb2

/-- Whatever a successful `get_user_dek` returns is a byte string. -/
theorem get_user_dek_lt {password salt uwd dek : List Nat}
    (h : EncryptionManager.get_user_dek password salt uwd = some dek) :
    ∀ b ∈ dek, b < 256 := by
  unfold EncryptionManager.get_user_dek at h
  cases hd : EncryptionManager.decrypt_data uwd
      (EncryptionManager.derive_key_from_password password (b64decode salt)) with
  | none => rw [hd] at h; simp at h
  | some x =>
      rw [hd] at h
      have hx : b64decode x = dek := by simpa using h
      rw [← hx]
      exact b64decode_lt x

/-- Unwrapping a fresh wrap made with `derive_key_from_password newPw newSalt`
under the same password and salt recovers the DEK. -/
theorem get_user_dek_new_wrap {newPw newSalt nonce dek : List Nat}
    (hnewpw : ∀ b ∈ newPw, b < 256) (hns : ∀ b ∈ newSalt, b < 256)
    (hnl : nonce.length = 12) (hnb : ∀ b ∈ nonce, b < 256)
    (hdekb : ∀ b ∈ dek, b < 256) :
    EncryptionManager.get_user_dek newPw (b64encode newSalt)
      (EncryptionManager.encrypt_data (b64encode dek)
        (EncryptionManager.derive_key_from_password newPw newSalt) nonce) = some dek := by
  unfold EncryptionManager.get_user_dek
  rw [b64decode_b64encode hns]
  rw [decrypt_data_encrypt_data hnl hnb (derive_lt hnewpw hns) (b64encode_lt dek)]
  simp [b64decode_b64encode hdekb]

/-- Unwrapping that fresh wrap under a different password fails. -/
theorem get_user_dek_new_wrap_other {oldPw newPw newSalt nonce dek : List Nat}
    (hnewpw : ∀ b ∈ newPw, b < 256) (hns : ∀ b ∈ newSalt, b < 256)
    (hnl : nonce.length = 12) (hnb : ∀ b ∈ nonce, b < 256)
    (hne : oldPw ≠ newPw) :
    EncryptionManager.get_user_dek oldPw (b64encode newSalt)
      (EncryptionManager.encrypt_data (b64encode dek)
        (EncryptionManager.derive_key_from_password newPw newSalt) nonce) = none := by
  unfold EncryptionManager.get_user_dek
  rw [b64decode_b64encode hns]
  rw [decrypt_data_wrong_key hnl hnb (derive_lt hnewpw hns) (b64encode_lt dek)]
  · rfl
  · intro hkeys
    exact hne ((derive_inj hkeys).1).symm

/-! ## Claims C6, C7, C9 -/

/-- C6: for every plaintext string and every key (and every fresh 12-byte
nonce drawn by `os.urandom(12)`), `decrypt_data(encrypt_data(plaintext, key),
key)` returns exactly the original plaintext. -/
theorem c6_decrypt_encrypt_roundtrip (data key nonce : List Nat)
    (hd : ∀ b ∈ data, b < 256) (hk : ∀ b ∈ key, b < 256)
    (hnlen : nonce.length = 12) (hn : ∀ b ∈ nonce, b < 256) :
    EncryptionManager.decrypt_data
      (EncryptionManager.encrypt_data data key nonce) key = some data :=
  decrypt_data_encrypt_data hnlen hn hk hd

theorem c6_witness :
    (List.replicate 12 3).length = 12 ∧
    EncryptionManager.decrypt_data
      (EncryptionManager.encrypt_data [104, 105] (List.replicate 32 7)
        (List.replicate 12 3))
      (List.replicate 32 7) = some [104, 105] :=
  ⟨by decide,
    c6_decrypt_encrypt_roundtrip [104, 105] (List.replicate 32 7) (List.replicate 12 3)
      (by decide) (by decide) (by decide) (by decide)⟩

/-- C7: for every DEK (and every `os.urandom` server part, which has the same
length as the DEK), `split_dek` returns base64 strings whose decodings have
the DEK's length, and `reconstruct_dek` of the two parts is exactly the DEK. -/
theorem c7_split_reconstruct (dek r : List Nat)
    (hlen : r.length = dek.length)
    (hdek : ∀ b ∈ dek, b < 256) (hr : ∀ b ∈ r, b < 256) :
    (b64decode (EncryptionManager.split_dek dek r).1).length = dek.length ∧
    (b64decode (EncryptionManager.split_dek dek r).2).length = dek.length ∧
    EncryptionManager.reconstruct_dek (EncryptionManager.split_dek dek r).1
      (EncryptionManager.split_dek dek r).2 = dek := by
  unfold EncryptionManager.split_dek EncryptionManager.reconstruct_dek
  simp only
  rw [b64decode_b64encode hr, b64decode_b64encode (zipWith_xor_lt hdek hr)]
  refine ⟨hlen, ?_, zipWith_xor_cancel dek r hlen⟩
  rw [List.length_zipWith]
  omega

theorem c7_witness :
    ([1, 2, 3] : List Nat).length = ([250, 0, 17] : List Nat).length ∧
    EncryptionManager.reconstruct_dek
      (EncryptionManager.split_dek [250, 0, 17] [1, 2, 3]).1
      (EncryptionManager.split_dek [250, 0, 17] [1, 2, 3]).2 = [250, 0, 17] :=
  ⟨by decide,
    (c7_split_reconstruct [250, 0, 17] [1, 2, 3] (by decide) (by decide)
      (by decide)).2.2⟩

/-- C9: two calls of `encrypt_data` on the same plaintext and key that draw
distinct fresh nonces produce different blobs. -/
theorem c9_nonce_distinct_blobs (data key n1 n2 : List Nat)
    (h1 : n1.length = 12) (h2 : n2.length = 12)
    (hb1 : ∀ b ∈ n1, b < 256) (hb2 : ∀ b ∈ n2, b < 256)
    (hk : ∀ b ∈ key, b < 256) (hd : ∀ b ∈ data, b < 256)
    (hne : n1 ≠ n2) :
    EncryptionManager.encrypt_data data key n1 ≠
      EncryptionManager.encrypt_data data key n2 := by
  intro heq
  unfold EncryptionManager.encrypt_data at heq
  have hbytes1 : ∀ b ∈ n1 ++ aesgcmEncrypt key n1 data, b < 256 := by
    intro b hb
    rcases List.mem_append.mp hb with h | h
    · exact hb1 b h
    · exact aesgcmEncrypt_lt hk hb1 hd b h
  have hbytes2 : ∀ b ∈ n2 ++ aesgcmEncrypt key n2 data, b < 256 := by
    intro b hb
    rcases List.mem_append.mp hb with h | h
    · exact hb2 b h
    · exact aesgcmEncrypt_lt hk hb2 hd b h
  have hdec := congrArg b64decode heq
  rw [b64decode_b64encode hbytes1, b64decode_b64encode hbytes2] at hdec
  exact hne (List.append_inj hdec (by omega)).1

theorem c9_witness :
    (List.replicate 12 0 : List Nat) ≠ (List.replicate 12 1 : List Nat) ∧
    EncryptionManager.encrypt_data [42] [9] (List.replicate 12 0) ≠
      EncryptionManager.encrypt_data [42] [9] (List.replicate 12 1) :=
  ⟨by decide,
    c9_nonce_distinct_blobs [42] [9] (List.replicate 12 0) (List.replicate 12 1)
      (by decide) (by decide) (by decide) (by decide) (by decide) (by decide)
      (by decide)⟩

/-! ## Claims C5 and C1 -/

theorem set_append_right (l r : List Nat) (i v : Nat) :
    (l ++ r).set (l.length + i) v = l ++ r.set i v := by
  induction l with
  | nil => simp
  | cons a t ih =>
      simp only [List.cons_append, List.length_cons]
      have harith : t.length + 1 + i = t.length + i + 1 := by omega
      rw [harith]
      show a :: ((t ++ r).set (t.length + i) v) = a :: (t ++ r.set i v)
      rw [ih]

theorem set_lt {l : List Nat} (hl : ∀ b ∈ l, b < 256) {j v : Nat} (hv : v < 256) :
    ∀ b ∈ l.set j v, b < 256 := by
  induction l generalizing j with
  | nil => simp
  | cons a t ih =>
      cases j with
      | zero =>
          intro b hb
          simp only [List.set, List.mem_cons] at hb
          rcases hb with rfl | hb2
          · exact hv
          · exact hl b (by simp [hb2])
      | succ k =>
          intro b hb
          simp only [List.set, List.mem_cons] at hb
          rcases hb with rfl | hb2
          · exact hl b (by simp)
          · exact ih (fun z hz => hl z (by simp [hz])) b hb2

theorem getD_set_self (l : List Nat) (j v : Nat) (hj : j < l.length) :
    (l.set j v).getD j 0 = v := by
  induction l generalizing j with
  | nil => simp at hj
  | cons a t ih =>
      cases j with
      | zero => rfl
      | succ k => exact ih k (by simpa using hj)

theorem set_ne_of_getD {l : List Nat} {j v : Nat} (hj : j < l.length)
    (hv : v ≠ l.getD j 0) : l.set j v ≠ l := by
  intro heq
  have := getD_set_self l j v hj
  rw [heq] at this
  exact hv this.symm

/-- C5 (amended): decryption under a different key fails, and decryption of a
blob whose underlying byte string (nonce ‖ ciphertext ‖ tag) was corrupted at
a single byte position fails; in both cases with an authentication error. -/
theorem c5_wrong_key_or_corrupt (data key1 key2 nonce : List Nat)
    (hd : ∀ b ∈ data, b < 256) (hk1 : ∀ b ∈ key1, b < 256)
    (hnlen : nonce.length = 12) (hn : ∀ b ∈ nonce, b < 256) :
    (key1 ≠ key2 →
      EncryptionManager.decrypt_data
        (EncryptionManager.encrypt_data data key1 nonce) key2 = none) ∧
    (∀ j v,
      j < (b64decode (EncryptionManager.encrypt_data data key1 nonce)).length →
      v < 256 →
      v ≠ (b64decode (EncryptionManager.encrypt_data data key1 nonce)).getD j 0 →
      EncryptionManager.decrypt_data
        (b64encode
          ((b64decode (EncryptionManager.encrypt_data data key1 nonce)).set j v))
        key1 = none) := by
  have hbytes : ∀ b ∈ nonce ++ aesgcmEncrypt key1 nonce data, b < 256 := by
    intro b hb
    rcases List.mem_append.mp hb with h | h
    · exact hn b h
    · exact aesgcmEncrypt_lt hk1 hn hd b h
  have hdec : b64decode (EncryptionManager.encrypt_data data key1 nonce) =
      nonce ++ aesgcmEncrypt key1 nonce data := by
    unfold EncryptionManager.encrypt_data
    exact b64decode_b64encode hbytes
  constructor
  · intro hne
    exact decrypt_data_wrong_key hnlen hn hk1 hd hne
  · intro j v hj hv hvne
    rw [hdec] at hj hvne ⊢
    by_cases hcase : j < 12
    · -- corruption inside the nonce
      have hjn : j < nonce.length := by omega
      rw [set_append_left _ _ _ _ hjn]
      unfold EncryptionManager.decrypt_data
      have hsetb : ∀ b ∈ nonce.set j v ++ aesgcmEncrypt key1 nonce data, b < 256 := by
        intro b hb
        rcases List.mem_append.mp hb with h | h
        · exact set_lt hn hv b h
        · exact aesgcmEncrypt_lt hk1 hn hd b h
      rw [b64decode_b64encode hsetb]
      have hlen12 : (nonce.set j v).length = 12 := by
        rw [List.length_set, hnlen]
      rw [← hlen12]
      simp only [List.take_left, List.drop_left]
      apply aesgcmDecrypt_wrong_nonce
      intro heq
      rw [List.getD_append _ _ _ _ hjn] at hvne
      exact set_ne_of_getD hjn hvne heq.symm
    · -- corruption inside ciphertext or tag
      have hj2 : j = nonce.length + (j - 12) := by omega
      rw [hj2, set_append_right]
      unfold EncryptionManager.decrypt_data
      have hsetb : ∀ b ∈ nonce ++ (aesgcmEncrypt key1 nonce data).set (j - 12) v,
          b < 256 := by
        intro b hb
        rcases List.mem_append.mp hb with h | h
        · exact hn b h
        · exact set_lt (aesgcmEncrypt_lt hk1 hn hd) hv b h
      rw [b64decode_b64encode hsetb]
      rw [← hnlen]
      simp only [List.take_left, List.drop_left]
      apply aesgcmDecrypt_set hk1 hn hd
      · rw [List.length_append] at hj
        omega
      · exact hv
      · rw [List.getD_append_right _ _ _ _ (by omega : nonce.length ≤ j)] at hvne
        exact hvne

set_option maxRecDepth 8000 in
theorem c5_witness :
    (List.replicate 32 7 : List Nat) ≠ List.replicate 32 8 ∧
    EncryptionManager.decrypt_data
      (EncryptionManager.encrypt_data [1, 2] (List.replicate 32 7)
        (List.replicate 12 0))
      (List.replicate 32 8) = none ∧
    EncryptionManager.decrypt_data
      (b64encode
        ((b64decode
          (EncryptionManager.encrypt_data [1, 2] (List.replicate 32 7)
            (List.replicate 12 0))).set 20 255))
      (List.replicate 32 7) = none :=
  ⟨by decide,
    (c5_wrong_key_or_corrupt [1, 2] (List.replicate 32 7) (List.replicate 32 8)
      (List.replicate 12 0) (by decide) (by decide) (by decide) (by decide)).1
      (by decide),
    (c5_wrong_key_or_corrupt [1, 2] (List.replicate 32 7) (List.replicate 32 8)
      (List.replicate 12 0) (by decide) (by decide) (by decide) (by decide)).2
      20 255 (by decide) (by decide) (by decide)⟩

set_option maxRecDepth 8000 in
/-- C5 counterexample: the claim is false as stated for "any blob differing
from the original in at least one byte": a different honestly encrypted blob
under the same key differs from the original yet decrypts successfully (to a
different plaintext), so it does not fail with an authentication error. -/
theorem c5_counterexample :
    (EncryptionManager.encrypt_data [1] (List.replicate 32 5)
      (List.replicate 12 0)).length =
      (EncryptionManager.encrypt_data [2] (List.replicate 32 5)
        (List.replicate 12 1)).length ∧
    EncryptionManager.encrypt_data [1] (List.replicate 32 5)
      (List.replicate 12 0) ≠
      EncryptionManager.encrypt_data [2] (List.replicate 32 5)
        (List.replicate 12 1) ∧
    EncryptionManager.decrypt_data
      (EncryptionManager.encrypt_data [2] (List.replicate 32 5)
        (List.replicate 12 1))
      (List.replicate 32 5) = some [2] :=
  ⟨by decide, by decide, by decide⟩

set_option maxRecDepth 8000 in
/-- C1 counterexample: with `new_password = old_password` (which the claim
quantifies over), the re-wrapped DEK is still decryptable with the old
password under the new salt, so `get_user_dek(old_password, new_salt,
new_user_wrapped_dek)` succeeds instead of failing. -/
theorem c1_counterexample :
    EncryptionManager.get_user_dek [1] (b64encode [2])
      (EncryptionManager.encrypt_data (b64encode [5])
        (EncryptionManager.derive_key_from_password [1] [2])
        (List.replicate 12 0)) = some [5] ∧
    EncryptionManager.change_password [1] [1] (b64encode [2])
      (EncryptionManager.encrypt_data (b64encode [5])
        (EncryptionManager.derive_key_from_password [1] [2])
        (List.replicate 12 0))
      [7] (List.replicate 12 1) =
      some [("salt", b64encode [7]),
        ("user_wrapped_dek",
          EncryptionManager.encrypt_data (b64encode [5])
            (EncryptionManager.derive_key_from_password [1] [7])
            (List.replicate 12 1))] ∧
    EncryptionManager.get_user_dek [1] (b64encode [7])
      (EncryptionManager.encrypt_data (b64encode [5])
        (EncryptionManager.derive_key_from_password [1] [7])
        (List.replicate 12 1)) = some [5] :=
  ⟨by decide, by decide, by decide⟩

/-- C1 (amended): when the new password differs from the old one,
`change_password` preserves the DEK under the new credentials, the old
password no longer unwraps the new blob, and the returned dict has no
`admin_wrapped_dek` entry. -/
theorem c1_change_password (oldPw newPw salt uwd newSalt nonce dek : List Nat)
    (hOld : EncryptionManager.get_user_dek oldPw salt uwd = some dek)
    (hne : oldPw ≠ newPw)
    (hNewB : ∀ b ∈ newPw, b < 256) (hSaltB : ∀ b ∈ newSalt, b < 256)
    (hNl : nonce.length = 12) (hNb : ∀ b ∈ nonce, b < 256) :
    ∃ nuwd,
      EncryptionManager.change_password oldPw newPw salt uwd newSalt nonce =
        some [("salt", b64encode newSalt), ("user_wrapped_dek", nuwd)] ∧
      EncryptionManager.get_user_dek newPw (b64encode newSalt) nuwd = some dek ∧
      EncryptionManager.get_user_dek oldPw (b64encode newSalt) nuwd = none ∧
      List.lookup "admin_wrapped_dek"
        [(("salt" : String), b64encode newSalt), ("user_wrapped_dek", nuwd)] =
        none := by
  have hdekb := get_user_dek_lt hOld
  refine ⟨EncryptionManager.encrypt_data (b64encode dek)
    (EncryptionManager.derive_key_from_password newPw newSalt) nonce, ?_, ?_, ?_, ?_⟩
  · unfold EncryptionManager.change_password
    rw [hOld]
    rfl
  · exact get_user_dek_new_wrap hNewB hSaltB hNl hNb hdekb
  · exact get_user_dek_new_wrap_other hNewB hSaltB hNl hNb hne
  · have e1 : (("admin_wrapped_dek" : String) == "salt") = false := by decide
    have e2 : (("admin_wrapped_dek" : String) == "user_wrapped_dek") = false := by
      decide
    simp [List.lookup, e1, e2]

set_option maxRecDepth 8000 in
theorem c1_witness :
    EncryptionManager.get_user_dek [1] (b64encode [2])
      (EncryptionManager.encrypt_data (b64encode [5])
        (EncryptionManager.derive_key_from_password [1] [2])
        (List.replicate 12 0)) = some [5] ∧
    ([1] : List Nat) ≠ [2] ∧
    (∃ nuwd,
      EncryptionManager.change_password [1] [2] (b64encode [2])
        (EncryptionManager.encrypt_data (b64encode [5])
          (EncryptionManager.derive_key_from_password [1] [2])
          (List.replicate 12 0))
        [7] (List.replicate 12 1) =
        some [("salt", b64encode [7]), ("user_wrapped_dek", nuwd)] ∧
      EncryptionManager.get_user_dek [2] (b64encode [7]) nuwd = some [5] ∧
      EncryptionManager.get_user_dek [1] (b64encode [7]) nuwd = none ∧
      List.lookup "admin_wrapped_dek"
        [(("salt" : String), b64encode [7]), ("user_wrapped_dek", nuwd)] = none) :=
  ⟨by decide, by decide,
    c1_change_password [1] [2] (b64encode [2])
      (EncryptionManager.encrypt_data (b64encode [5])
        (EncryptionManager.derive_key_from_password [1] [2])
        (List.replicate 12 0))
      [7] (List.replicate 12 1) [5] (by decide) (by decide) (by decide) (by decide)
      (by decide) (by decide)⟩

/-! ## Claims C10, C3, C4 -/

theorem rexists_invalidate_not_session {st : RedisState} {uid curToken : String}
    {k : RKey} (h : ∀ t : String, k ≠ .session t) :
    rexists (invalidate_user_sessions st uid curToken) k = rexists st k := by
  unfold rexists
  rw [rget_invalidate_not_session h]

/-- C10: when the Redis `exists` call of the blacklist check raises, the
token is validated as if it were not blacklisted: the result is the one a
blacklist-free state would give, and a cached session authenticates even
though the token is blacklisted — while the same state with a healthy cache
returns 401. -/
theorem c10_blacklist_fail_open (token : String) (st : RedisState) (pb : PBRefresh)
    (hbl : rexists st (.blacklist token) = true) :
    (verify_token token true false st pb).1 =
      (verify_token token false false (rdel st (.blacklist token)) pb).1 ∧
    (∀ si, rget st (.session token) = some (.sess si) →
      verify_token token true false st pb = (.ok si none, st)) ∧
    verify_token token false false st pb = (.err 401, st) := by
  have hk0 : (RKey.blacklist token) ≠ (RKey.session token) := by simp
  have hbl2 : rexists (rdel st (.blacklist token)) (.blacklist token) = false := by
    unfold rexists
    rw [rget_rdel_self]
    rfl
  have hsget : rget (rdel st (.blacklist token)) (.session token) =
      rget st (.session token) := rget_rdel_ne hk0
  refine ⟨?_, ?_, ?_⟩
  · unfold verify_token
    rw [hbl2, hsget]
    simp only [Bool.not_true, Bool.false_and, Bool.not_false, Bool.true_and,
      Bool.false_eq_true, if_false]
    cases hc : rget st (.session token) with
    | some v =>
        cases v <;> cases pb <;> simp [apply_ite]
    | none => cases pb <;> simp [apply_ite]
  · intro si hc
    unfold verify_token
    simp only [Bool.not_true, Bool.false_and, Bool.false_eq_true, if_false, hc]
  · unfold verify_token
    simp only [Bool.not_false, Bool.true_and, hbl, if_true]

theorem c10_witness :
    rexists [⟨.blacklist "t", .mark "1", some 100⟩,
      ⟨.session "t", .sess ⟨"u", "a", "user", "i", false⟩, some 100⟩]
      (.blacklist "t") = true ∧
    verify_token "t" true false
      [⟨.blacklist "t", .mark "1", some 100⟩,
        ⟨.session "t", .sess ⟨"u", "a", "user", "i", false⟩, some 100⟩] .reject =
      (.ok ⟨"u", "a", "user", "i", false⟩ none,
        [⟨.blacklist "t", .mark "1", some 100⟩,
          ⟨.session "t", .sess ⟨"u", "a", "user", "i", false⟩, some 100⟩]) ∧
    verify_token "t" false false
      [⟨.blacklist "t", .mark "1", some 100⟩,
        ⟨.session "t", .sess ⟨"u", "a", "user", "i", false⟩, some 100⟩] .reject =
      (.err 401,
        [⟨.blacklist "t", .mark "1", some 100⟩,
          ⟨.session "t", .sess ⟨"u", "a", "user", "i", false⟩, some 100⟩]) :=
  ⟨by decide,
    (c10_blacklist_fail_open "t"
      [⟨.blacklist "t", .mark "1", some 100⟩,
        ⟨.session "t", .sess ⟨"u", "a", "user", "i", false⟩, some 100⟩] .reject
      (by decide)).2.1 ⟨"u", "a", "user", "i", false⟩ (by decide),
    (c10_blacklist_fail_open "t"
      [⟨.blacklist "t", .mark "1", some 100⟩,
        ⟨.session "t", .sess ⟨"u", "a", "user", "i", false⟩, some 100⟩] .reject
      (by decide)).2.2⟩

theorem login_blacklist_preserved {identity : String} {pw : List Nat} {keep : Bool}
    {ip : String} {st : RedisState} {pbAuth : Option (String × UserRecord)}
    {T : String}
    (h : ∀ tok rec, pbAuth = some (tok, rec) → tok ≠ T) :
    rexists (login_user identity pw keep ip st pbAuth).2 (.blacklist T) =
      rexists st (.blacklist T) := by
  have k1 : (RKey.rateIp ip) ≠ (.blacklist T) := by simp
  have k2 : (RKey.rateIdentity identity) ≠ (.blacklist T) := by simp
  unfold login_user
  by_cases h1 : counterVal st (.rateIp ip) ≥ 5
  · rw [if_pos h1]
  · rw [if_neg h1]
    by_cases h2 : counterVal st (.rateIdentity identity) ≥ 5
    · rw [if_pos h2]
    · rw [if_neg h2]
      have hchain : rexists
          (rexpire (rincr (rexpire (rincr st (.rateIp ip)) (.rateIp ip) 60)
            (.rateIdentity identity)) (.rateIdentity identity) 60) (.blacklist T) =
          rexists st (.blacklist T) := by
        rw [rexists_rexpire, rexists_rincr_ne k2, rexists_rexpire,
          rexists_rincr_ne k1]
      cases hauth : pbAuth with
      | none =>
          dsimp only
          exact hchain
      | some p =>
          obtain ⟨tok, rec⟩ := p
          have htok : tok ≠ T := h tok rec hauth
          dsimp only
          by_cases hrole : rec.role = "service"
          · rw [if_pos hrole]
            exact hchain
          · rw [if_neg hrole]
            cases hdek : EncryptionManager.get_user_dek pw rec.salt
                rec.user_wrapped_dek with
            | none =>
                dsimp only
                rw [rexists_rdel_ne k2, rexists_rdel_ne k1]
                exact hchain
            | some dk =>
                dsimp only
                rw [rexists_rsetex_ne (by simp : (RKey.session tok) ≠ .blacklist T),
                  rexists_rdel_ne (by simp [htok] : (RKey.blacklist tok) ≠ .blacklist T),
                  rexists_rdel_ne k2, rexists_rdel_ne k1]
                exact hchain

theorem verify_blacklist_preserved (t : String) (blF gF : Bool) (st : RedisState)
    (pb : PBRefresh) (T : String) :
    rexists (verify_token t blF gF st pb).2 (.blacklist T) =
      rexists st (.blacklist T) := by
  unfold verify_token
  by_cases h1 : (!blF && rexists st (.blacklist t)) = true
  · rw [if_pos h1]
  · rw [if_neg h1]
    cases hc : (if gF then none else rget st (.session t)) with
    | some v =>
        cases v with
        | sess si => rfl
        | mark s =>
            cases pb with
            | reject => rfl
            | unavailable => rfl
            | ok newToken rec =>
                by_cases hnt : newToken ≠ t
                · simp only [if_pos hnt]
                  rw [rexists_rsetex_ne (by simp : (RKey.session newToken) ≠ .blacklist T),
                    rexists_rdel_ne (by simp : (RKey.session t) ≠ .blacklist T)]
                · simp only [if_neg hnt]
                  rw [rexists_rsetex_ne (by simp : (RKey.session t) ≠ .blacklist T)]
        | count n =>
            cases pb with
            | reject => rfl
            | unavailable => rfl
            | ok newToken rec =>
                by_cases hnt : newToken ≠ t
                · simp only [if_pos hnt]
                  rw [rexists_rsetex_ne (by simp : (RKey.session newToken) ≠ .blacklist T),
                    rexists_rdel_ne (by simp : (RKey.session t) ≠ .blacklist T)]
                · simp only [if_neg hnt]
                  rw [rexists_rsetex_ne (by simp : (RKey.session t) ≠ .blacklist T)]
        | dekCache ci =>
            cases pb with
            | reject => rfl
            | unavailable => rfl
            | ok newToken rec =>
                by_cases hnt : newToken ≠ t
                · simp only [if_pos hnt]
                  rw [rexists_rsetex_ne (by simp : (RKey.session newToken) ≠ .blacklist T),
                    rexists_rdel_ne (by simp : (RKey.session t) ≠ .blacklist T)]
                · simp only [if_neg hnt]
                  rw [rexists_rsetex_ne (by simp : (RKey.session t) ≠ .blacklist T)]
    | none =>
        cases pb with
        | reject => rfl
        | unavailable => rfl
        | ok newToken rec =>
            by_cases hnt : newToken ≠ t
            · simp only [if_pos hnt]
              rw [rexists_rsetex_ne (by simp : (RKey.session newToken) ≠ .blacklist T),
                rexists_rdel_ne (by simp : (RKey.session t) ≠ .blacklist T)]
            · simp only [if_neg hnt]
              rw [rexists_rsetex_ne (by simp : (RKey.session t) ≠ .blacklist T)]

theorem changepw_blacklist_preserved (a b : List Nat) (c : SessionInfo) (t : String)
    (st : RedisState) (o : ChangePwOracle) (ns nn : List Nat) (T : String) :
    rexists (change_password_route a b c t st o ns nn).2 (.blacklist T) =
      rexists st (.blacklist T) := by
  unfold change_password_route
  cases hf : o.userFetch with
  | none => rfl
  | some p =>
      obtain ⟨salt, uwd⟩ := p
      dsimp only
      cases hd : EncryptionManager.get_user_dek a salt uwd with
      | none => rfl
      | some dk =>
          dsimp only
          cases hcp : EncryptionManager.change_password a b salt uwd ns nn with
          | none => rfl
          | some updated =>
              dsimp only
              have hst3 : rexists
                  (rsetex (rdel (invalidate_user_sessions st c.id t)
                    (.session t)) (.session (o.authToken.getD "")) (.sess c)
                    (if c.is_admin then 900 else 8 * 3600)) (.blacklist T) =
                  rexists st (.blacklist T) := by
                rw [rexists_rsetex_ne
                    (by simp : (RKey.session (o.authToken.getD "")) ≠ .blacklist T),
                  rexists_rdel_ne (by simp : (RKey.session t) ≠ .blacklist T),
                  rexists_invalidate_not_session
                    (by simp : ∀ s : String, (RKey.blacklist T) ≠ .session s)]
              cases hp : o.patchOk with
              | false => simp only [hp, Bool.not_false, if_true]
              | true =>
                  simp only [hp, Bool.not_true, Bool.false_eq_true, if_false]
                  cases hat : o.authToken with
                  | none => rfl
                  | some newToken =>
                      dsimp only
                      have hst3n : rexists
                          (rsetex (rdel (invalidate_user_sessions st c.id t)
                            (.session t)) (.session newToken) (.sess c)
                            (if c.is_admin then 900 else 8 * 3600)) (.blacklist T) =
                          rexists st (.blacklist T) := by
                        rw [rexists_rsetex_ne
                            (by simp : (RKey.session newToken) ≠ .blacklist T),
                          rexists_rdel_ne (by simp : (RKey.session t) ≠ .blacklist T),
                          rexists_invalidate_not_session
                            (by simp : ∀ s : String, (RKey.blacklist T) ≠ .session s)]
                      cases hl1 : updated.lookup "salt" with
                      | none => simpa using hst3n
                      | some nsv =>
                          cases hl2 : updated.lookup "user_wrapped_dek" with
                          | none => simpa using hst3n
                          | some nuwd =>
                              dsimp only
                              cases hgd : EncryptionManager.get_user_dek b nsv nuwd with
                              | none => simpa using hst3n
                              | some dk2 => simpa using hst3n

theorem logout_blacklist_preserved (t T : String) (st : RedisState)
    (hbl : rexists st (.blacklist T) = true) :
    rexists (logout_user t st) (.blacklist T) = true := by
  unfold logout_user
  by_cases h : t = T
  · rw [h, rexists_rsetex_self]
  · rw [rexists_rsetex_ne (by simp [h] : (RKey.blacklist t) ≠ .blacklist T),
      rexists_rdel_ne (by simp : (RKey.session t) ≠ .blacklist T)]
    exact hbl

/-- C3 (amended): while a token's blacklist entry is present every validation
of the token is rejected with 401, and no subsystem operation removes the
entry — except a successful login for which the identity provider reuses
this very token, which deletes the blacklist entry (auth.py lines 658-661)
so the token authenticates again. -/
theorem c3_blacklist_persistence (token : String) (st : RedisState) (op : SysOp)
    (hbl : rexists st (.blacklist token) = true)
    (hop : ∀ identity pw keep ip rec,
      op ≠ .opLogin identity pw keep ip (some (token, rec))) :
    rexists (stepState st op) (.blacklist token) = true ∧
    (∀ getFail pb, (verify_token token false getFail st pb).1 = .err 401) := by
  constructor
  · cases op with
    | opLogin identity pw keep ip pbAuth =>
        have h : ∀ tok rec, pbAuth = some (tok, rec) → tok ≠ token := by
          intro tok rec hauth htok
          exact hop identity pw keep ip rec (by rw [hauth, htok])
        unfold stepState
        rw [login_blacklist_preserved h]
        exact hbl
    | opLogout t => exact logout_blacklist_preserved t token st hbl
    | opVerify t b g pb =>
        unfold stepState
        rw [verify_blacklist_preserved]
        exact hbl
    | opChangePw a b c t o ns nn =>
        unfold stepState
        rw [changepw_blacklist_preserved]
        exact hbl
  · intro getFail pb
    unfold verify_token
    simp only [Bool.not_false, Bool.true_and, hbl, if_true]

theorem c3_witness :
    rexists [⟨.blacklist "t", .mark "1", some 2592000⟩] (.blacklist "t") = true ∧
    rexists (stepState [⟨.blacklist "t", .mark "1", some 2592000⟩]
      (.opLogout "other")) (.blacklist "t") = true ∧
    (verify_token "t" false false [⟨.blacklist "t", .mark "1", some 2592000⟩]
      .reject).1 = .err 401 :=
  ⟨by decide,
    (c3_blacklist_persistence "t" [⟨.blacklist "t", .mark "1", some 2592000⟩]
      (.opLogout "other") (by decide)
      (fun _ _ _ _ _ h => by cases h)).1,
    (c3_blacklist_persistence "t" [⟨.blacklist "t", .mark "1", some 2592000⟩]
      (.opLogout "other") (by decide)
      (fun _ _ _ _ _ h => by cases h)).2 false .reject⟩

set_option maxRecDepth 8000 in
/-- C4 counterexample: a non-admin session established by a login with the
extended-login flag (`keep_logged_in`, 30-day TTL) that is later validated on
a cache miss is restored with the 8-hour TTL, not the 30-day TTL the claim
requires: `verify_token` never consults the extended-login flag. -/
theorem c4_counterexample :
    rttl ((login_user "alice" [1] true "ip" []
      (some ("t", ⟨"u1", "alice", "user", "inst", b64encode [2],
        EncryptionManager.encrypt_data (b64encode [5])
          (EncryptionManager.derive_key_from_password [1] [2])
          (List.replicate 12 0)⟩))).2) (.session "t") = some 2592000 ∧
    (verify_token "t" false false
      (rdel ((login_user "alice" [1] true "ip" []
        (some ("t", ⟨"u1", "alice", "user", "inst", b64encode [2],
          EncryptionManager.encrypt_data (b64encode [5])
            (EncryptionManager.derive_key_from_password [1] [2])
            (List.replicate 12 0)⟩))).2) (.session "t"))
      (.ok "t" ⟨"u1", "alice", "user", "inst", b64encode [2],
        EncryptionManager.encrypt_data (b64encode [5])
          (EncryptionManager.derive_key_from_password [1] [2])
          (List.replicate 12 0)⟩)).1 =
      .ok ⟨"u1", "alice", "user", "inst", false⟩ none ∧
    rttl ((verify_token "t" false false
      (rdel ((login_user "alice" [1] true "ip" []
        (some ("t", ⟨"u1", "alice", "user", "inst", b64encode [2],
          EncryptionManager.encrypt_data (b64encode [5])
            (EncryptionManager.derive_key_from_password [1] [2])
            (List.replicate 12 0)⟩))).2) (.session "t"))
      (.ok "t" ⟨"u1", "alice", "user", "inst", b64encode [2],
        EncryptionManager.encrypt_data (b64encode [5])
          (EncryptionManager.derive_key_from_password [1] [2])
          (List.replicate 12 0)⟩)).2) (.session "t") = some 28800 ∧
    (28800 : Nat) ≠ 2592000 :=
  ⟨by decide, by decide, by decide, by decide⟩

/-- C4 (amended): on a cache miss, a rotated token leads to deletion of the
old cache entry and a new entry under the new token; the same token is
restored under its own key; in both cases the TTL is 900 s for admin roles
and 28800 s (8 hours) for every non-admin role — the extended-login flag is
not consulted, so the 30-day TTL never applies here. -/
theorem c4_refresh_ttl (token newToken : String) (rec : UserRecord)
    (st : RedisState)
    (hmiss : rget st (.session token) = none)
    (hnbl : rexists st (.blacklist token) = false) :
    (newToken ≠ token →
      (verify_token token false false st (.ok newToken rec)).1 =
        .ok (extract_session_info_from_record rec) (some newToken) ∧
      rget (verify_token token false false st (.ok newToken rec)).2
        (.session token) = none ∧
      rget (verify_token token false false st (.ok newToken rec)).2
        (.session newToken) =
        some (.sess (extract_session_info_from_record rec)) ∧
      rttl (verify_token token false false st (.ok newToken rec)).2
        (.session newToken) =
        some (if (extract_session_info_from_record rec).is_admin
          then 900 else 28800)) ∧
    (newToken = token →
      (verify_token token false false st (.ok newToken rec)).1 =
        .ok (extract_session_info_from_record rec) none ∧
      rget (verify_token token false false st (.ok newToken rec)).2
        (.session token) =
        some (.sess (extract_session_info_from_record rec)) ∧
      rttl (verify_token token false false st (.ok newToken rec)).2
        (.session token) =
        some (if (extract_session_info_from_record rec).is_admin
          then 900 else 28800)) := by
  have hv : verify_token token false false st (.ok newToken rec) =
      (if newToken ≠ token then
        (.ok (extract_session_info_from_record rec) (some newToken),
          rsetex (rdel st (.session token)) (.session newToken)
            (.sess (extract_session_info_from_record rec))
            (verifyTTL (extract_session_info_from_record rec).is_admin))
      else
        (.ok (extract_session_info_from_record rec) none,
          rsetex st (.session token)
            (.sess (extract_session_info_from_record rec))
            (verifyTTL (extract_session_info_from_record rec).is_admin))) := by
    unfold verify_token
    rw [hnbl]
    simp only [Bool.not_false, Bool.and_false, Bool.false_eq_true, if_false, hmiss]
  constructor
  · intro hne
    rw [hv, if_pos hne]
    have hkne : (RKey.session newToken) ≠ (.session token) := by simp [hne]
    refine ⟨rfl, ?_, ?_, ?_⟩
    · rw [rget_rsetex_ne hkne, rget_rdel_self]
    · exact rget_rsetex_self
    · rw [rttl_rsetex_self]
      unfold verifyTTL
      by_cases ha : (extract_session_info_from_record rec).is_admin <;> simp [ha]
  · intro heq
    rw [hv, if_neg (by simp [heq])]
    refine ⟨rfl, ?_, ?_⟩
    · exact rget_rsetex_self
    · rw [rttl_rsetex_self]
      unfold verifyTTL
      by_cases ha : (extract_session_info_from_record rec).is_admin <;> simp [ha]

theorem c4_witness :
    ("b" : String) ≠ "a" ∧
    rget ([] : RedisState) (.session "a") = none ∧
    (verify_token "a" false false [] (.ok "b"
      ⟨"u1", "alice", "user", "inst", [], []⟩)).1 =
      .ok (extract_session_info_from_record ⟨"u1", "alice", "user", "inst", [], []⟩)
        (some "b") ∧
    rttl (verify_token "a" false false [] (.ok "b"
      ⟨"u1", "alice", "user", "inst", [], []⟩)).2 (.session "b") =
      some (if (extract_session_info_from_record
        ⟨"u1", "alice", "user", "inst", [], []⟩).is_admin then 900 else 28800) :=
  ⟨by decide, by decide,
    ((c4_refresh_ttl "a" "b" ⟨"u1", "alice", "user", "inst", [], []⟩ []
      (by decide) (by decide)).1 (by decide)).1,
    (((c4_refresh_ttl "a" "b" ⟨"u1", "alice", "user", "inst", [], []⟩ []
      (by decide) (by decide)).1 (by decide)).2.2).2⟩

/-! ## Claim C8 -/

/-- C8: in balanced tier, a cache miss fails with the distinct
re-authenticate error (and never decodes the supplied value as a full DEK),
and a cache hit returns the XOR reconstruction of the decrypted server part
with the client part, rewriting the entry with a fresh 1800-second TTL. -/
theorem c8_balanced_cache (dekOrClientPart : List Nat) (userId token : String)
    (st : RedisState) (serverKey : List Nat) (now : String) :
    (rget st (.dek userId token) = none →
      get_dek_from_request dekOrClientPart userId token .balanced st serverKey now =
        (.error "DEK cache expired or not found. Please re-authenticate.", st)) ∧
    (∀ ci sp, rget st (.dek userId token) = some (.dekCache ci) →
      EncryptionManager.decrypt_dek_part ci.encrypted_server_part serverKey =
        some sp →
      (get_dek_from_request dekOrClientPart userId token .balanced st serverKey
          now).1 =
        .ok (EncryptionManager.reconstruct_dek sp dekOrClientPart) ∧
      rget (get_dek_from_request dekOrClientPart userId token .balanced st serverKey
          now).2 (.dek userId token) =
        some (.dekCache ⟨ci.encrypted_server_part, now⟩) ∧
      rttl (get_dek_from_request dekOrClientPart userId token .balanced st serverKey
          now).2 (.dek userId token) = some 1800) := by
  constructor
  · intro hmiss
    unfold get_dek_from_request
    rw [hmiss]
  · intro ci sp hhit hdec
    have hout : get_dek_from_request dekOrClientPart userId token .balanced st
        serverKey now =
        (.ok (EncryptionManager.reconstruct_dek sp dekOrClientPart),
          rsetex st (.dek userId token)
            (.dekCache ⟨ci.encrypted_server_part, now⟩) 1800) := by
      unfold get_dek_from_request
      rw [hhit]
      dsimp only
      rw [hdec]
    rw [hout]
    exact ⟨rfl, rget_rsetex_self, rttl_rsetex_self⟩

set_option maxRecDepth 8000 in
theorem c8_witness :
    rget ([] : RedisState) (.dek "u" "t") = none ∧
    get_dek_from_request (b64encode [3]) "u" "t" .balanced [] [1] "now" =
      (.error "DEK cache expired or not found. Please re-authenticate.", []) ∧
    rget [⟨.dek "u" "t",
        .dekCache ⟨EncryptionManager.encrypt_dek_part (b64encode [9]) [1]
          (List.replicate 12 0), "t0"⟩, some 1800⟩]
      (.dek "u" "t") =
      some (.dekCache ⟨EncryptionManager.encrypt_dek_part (b64encode [9]) [1]
        (List.replicate 12 0), "t0"⟩) ∧
    (get_dek_from_request (b64encode [3]) "u" "t" .balanced
      [⟨.dek "u" "t",
        .dekCache ⟨EncryptionManager.encrypt_dek_part (b64encode [9]) [1]
          (List.replicate 12 0), "t0"⟩, some 1800⟩] [1] "now").1 =
      .ok (EncryptionManager.reconstruct_dek (b64encode [9]) (b64encode [3])) ∧
    rttl (get_dek_from_request (b64encode [3]) "u" "t" .balanced
      [⟨.dek "u" "t",
        .dekCache ⟨EncryptionManager.encrypt_dek_part (b64encode [9]) [1]
          (List.replicate 12 0), "t0"⟩, some 1800⟩] [1] "now").2
      (.dek "u" "t") = some 1800 :=
  ⟨by decide,
    (c8_balanced_cache (b64encode [3]) "u" "t" [] [1] "now").1 (by decide),
    by decide,
    ((c8_balanced_cache (b64encode [3]) "u" "t"
      [⟨.dek "u" "t",
        .dekCache ⟨EncryptionManager.encrypt_dek_part (b64encode [9]) [1]
          (List.replicate 12 0), "t0"⟩, some 1800⟩] [1] "now").2
      ⟨EncryptionManager.encrypt_dek_part (b64encode [9]) [1]
        (List.replicate 12 0), "t0"⟩ (b64encode [9]) (by decide) (by decide)).1,
    ((c8_balanced_cache (b64encode [3]) "u" "t"
      [⟨.dek "u" "t",
        .dekCache ⟨EncryptionManager.encrypt_dek_part (b64encode [9]) [1]
          (List.replicate 12 0), "t0"⟩, some 1800⟩] [1] "now").2
      ⟨EncryptionManager.encrypt_dek_part (b64encode [9]) [1]
        (List.replicate 12 0), "t0"⟩ (b64encode [9]) (by decide) (by decide)).2.2⟩

/-! ## Claim C2 -/

theorem rget_none_of_forall_ne {st : RedisState} {k : RKey}
    (h : ∀ e ∈ st, e.key ≠ k) : rget st k = none := by
  unfold rget rfind
  rw [List.find?_eq_none.mpr]
  · rfl
  · intro e he
    simpa using h e he

theorem rget_filter_pred {p : RedisEntry → Bool} {st : RedisState} {k : RKey}
    {v : RVal} (h : rget (st.filter p) k = some v) :
    ∃ tl, (⟨k, v, tl⟩ : RedisEntry) ∈ st ∧ p ⟨k, v, tl⟩ = true := by
  unfold rget rfind at h
  cases hf : List.find? (fun e => e.key == k) (st.filter p) with
  | none => rw [hf] at h; simp at h
  | some e =>
      rw [hf] at h
      have hkey : e.key = k := by simpa using List.find?_some hf
      have hval : e.val = v := by simpa using h
      have hmem := List.mem_of_find?_eq_some hf
      rw [List.mem_filter] at hmem
      refine ⟨e.ttl, ?_, ?_⟩
      · have : e = ⟨k, v, e.ttl⟩ := by
          cases e
          simp_all
        rw [← this]
        exact hmem.1
      · have : e = ⟨k, v, e.ttl⟩ := by
          cases e
          simp_all
        rw [← this]
        exact hmem.2

/-- A surviving session entry of `invalidate_user_sessions` under a token
other than the current one belongs to a different user. -/
theorem invalidate_survivor {st : RedisState} {uid curTok tok : String}
    {si : SessionInfo}
    (h : rget (invalidate_user_sessions st uid curTok) (.session tok) =
      some (.sess si))
    (hne : tok ≠ curTok) : si.id ≠ uid := by
  obtain ⟨tl, _, hp⟩ := rget_filter_pred h
  simp only [invalidate_user_sessions, matchesUser] at hp
  intro hid
  rw [hid] at hp
  simp [hne] at hp

/-- With unique keys, the session entry of a matching user under a token
other than the current one is removed by `invalidate_user_sessions`. -/
theorem rget_invalidate_self {st : RedisState} {uid curTok tok : String}
    {si : SessionInfo}
    (hnd : (st.map (fun e => e.key)).Nodup)
    (h : rget st (.session tok) = some (.sess si))
    (hid : si.id = uid) (hne : tok ≠ curTok) :
    rget (invalidate_user_sessions st uid curTok) (.session tok) = none := by
  unfold rget rfind at h
  cases hf : List.find? (fun e => e.key == RKey.session tok) st with
  | none => rw [hf] at h; simp at h
  | some e0 =>
      rw [hf] at h
      have hkey : e0.key = .session tok := by simpa using List.find?_some hf
      have hval : e0.val = .sess si := by simpa using h
      have hmem := List.mem_of_find?_eq_some hf
      apply rget_none_of_forall_ne
      intro e he hk
      unfold invalidate_user_sessions at he
      have hemem : e ∈ st := List.mem_of_mem_filter he
      have hepred := List.of_mem_filter he
      have heq : e = e0 := by
        exact List.inj_on_of_nodup_map hnd hemem hmem (by rw [hk, hkey])
      rw [heq] at hepred
      simp only [hkey, hval, matchesUser, hid] at hepred
      simp [hne] at hepred

theorem filter_length_rsetex (st : RedisState) (k : RKey) (v : RVal) (t : Nat) :
    ((rsetex st k v t).filter (fun e => e.key == k)).length = 1 := by
  unfold rsetex rdel
  rw [List.filter_cons_of_pos (by simp)]
  have hnil : List.filter (fun e : RedisEntry => e.key == k)
      (List.filter (fun e : RedisEntry => e.key != k) st) = [] := by
    rw [List.filter_eq_nil_iff]
    intro e he
    have := List.of_mem_filter he
    simp_all
  rw [hnil]
  rfl

/-- C2: after a successful change-password request, every previously cached
session of the user — the one that initiated the change included — is gone,
so any pre-change token misses the cache and, the provider rejecting it
after the password change, validates to 401, while exactly one session
entry exists under the newly issued token and validates successfully. -/
theorem c2_change_password_sessions (curPw newPw : List Nat)
    (current : SessionInfo) (token : String) (st : RedisState)
    (o : ChangePwOracle) (newSalt nonce : List Nat)
    (salt uwd dek : List Nat) (newToken : String)
    (hfetch : o.userFetch = some (salt, uwd))
    (hdek : EncryptionManager.get_user_dek curPw salt uwd = some dek)
    (hpatch : o.patchOk = true)
    (hauth : o.authToken = some newToken)
    (hnewpw : ∀ b ∈ newPw, b < 256) (hns : ∀ b ∈ newSalt, b < 256)
    (hnl : nonce.length = 12) (hnb : ∀ b ∈ nonce, b < 256)
    (hnodup : (st.map (fun e => e.key)).Nodup) :
    (change_password_route curPw newPw current token st o newSalt nonce).1 =
      .ok newToken ∧
    (∀ tok si, tok ≠ newToken →
      rget (change_password_route curPw newPw current token st o newSalt
        nonce).2 (.session tok) = some (.sess si) →
      si.id ≠ current.id) ∧
    rget (change_password_route curPw newPw current token st o newSalt
      nonce).2 (.session newToken) = some (.sess current) ∧
    ((change_password_route curPw newPw current token st o newSalt
      nonce).2.filter (fun e => e.key == RKey.session newToken)).length = 1 ∧
    (∀ tok si, rget st (.session tok) = some (.sess si) →
      si.id = current.id → tok ≠ newToken →
      verify_token tok false false
        (change_password_route curPw newPw current token st o newSalt nonce).2
        .reject =
        (.err 401,
          (change_password_route curPw newPw current token st o newSalt
            nonce).2)) ∧
    (rexists st (.blacklist newToken) = false → ∀ pb,
      verify_token newToken false false
        (change_password_route curPw newPw current token st o newSalt nonce).2
        pb =
        (.ok current none,
          (change_password_route curPw newPw current token st o newSalt
            nonce).2)) := by
  have hdekb := get_user_dek_lt hdek
  have hcp : EncryptionManager.change_password curPw newPw salt uwd newSalt nonce =
      some [("salt", b64encode newSalt),
        ("user_wrapped_dek",
          EncryptionManager.encrypt_data (b64encode dek)
            (EncryptionManager.derive_key_from_password newPw newSalt) nonce)] := by
    unfold EncryptionManager.change_password
    rw [hdek]
    rfl
  have e1 : (("salt" : String) == "salt") = true := by decide
  have e2 : (("user_wrapped_dek" : String) == "salt") = false := by decide
  have e3 : (("user_wrapped_dek" : String) == "user_wrapped_dek") = true := by decide
  have hl1 : List.lookup "salt"
      [(("salt" : String), b64encode newSalt),
        ("user_wrapped_dek",
          EncryptionManager.encrypt_data (b64encode dek)
            (EncryptionManager.derive_key_from_password newPw newSalt) nonce)] =
      some (b64encode newSalt) := by
    simp [List.lookup, e1]
  have hl2 : List.lookup "user_wrapped_dek"
      [(("salt" : String), b64encode newSalt),
        ("user_wrapped_dek",
          EncryptionManager.encrypt_data (b64encode dek)
            (EncryptionManager.derive_key_from_password newPw newSalt) nonce)] =
      some (EncryptionManager.encrypt_data (b64encode dek)
        (EncryptionManager.derive_key_from_password newPw newSalt) nonce) := by
    simp [List.lookup, e2, e3]
  have hnew : EncryptionManager.get_user_dek newPw (b64encode newSalt)
      (EncryptionManager.encrypt_data (b64encode dek)
        (EncryptionManager.derive_key_from_password newPw newSalt) nonce) =
      some dek := get_user_dek_new_wrap hnewpw hns hnl hnb hdekb
  have hout : change_password_route curPw newPw current token st o newSalt nonce =
      (.ok newToken,
        rsetex (rdel (invalidate_user_sessions st current.id token)
          (.session token)) (.session newToken) (.sess current)
          (if current.is_admin then 900 else 8 * 3600)) := by
    unfold change_password_route
    rw [hfetch]
    dsimp only
    rw [hdek]
    dsimp only
    rw [hcp]
    dsimp only
    rw [hpatch]
    simp only [Bool.not_true, Bool.false_eq_true, if_false]
    rw [hauth]
    dsimp only
    rw [hl1, hl2]
    dsimp only
    rw [hnew]
  rw [hout]
  dsimp only
  refine ⟨rfl, ?_, rget_rsetex_self, filter_length_rsetex _ _ _ _, ?_, ?_⟩
  · intro tok si htokne hgot
    rw [rget_rsetex_ne (by simp [Ne.symm htokne] : (RKey.session newToken) ≠ .session tok)]
      at hgot
    by_cases htc : tok = token
    · rw [htc, rget_rdel_self] at hgot
      exact absurd hgot (by simp)
    · rw [rget_rdel_ne (by simp [Ne.symm htc] : (RKey.session token) ≠ .session tok)]
        at hgot
      exact invalidate_survivor hgot htc
  · intro tok si hpre hid htokne
    have hmiss : rget (rsetex (rdel (invalidate_user_sessions st current.id token)
        (.session token)) (.session newToken) (.sess current)
        (if current.is_admin then 900 else 8 * 3600)) (.session tok) = none := by
      rw [rget_rsetex_ne (by simp [Ne.symm htokne] : (RKey.session newToken) ≠ .session tok)]
      by_cases htc : tok = token
      · rw [htc, rget_rdel_self]
      · rw [rget_rdel_ne (by simp [Ne.symm htc] : (RKey.session token) ≠ .session tok)]
        exact rget_invalidate_self hnodup hpre hid htc
    unfold verify_token
    cases hbl : rexists (rsetex (rdel (invalidate_user_sessions st current.id token)
        (.session token)) (.session newToken) (.sess current)
        (if current.is_admin then 900 else 8 * 3600)) (.blacklist tok) with
    | true => simp only [hbl, Bool.not_false, Bool.true_and, if_true]
    | false =>
        simp only [hbl, Bool.not_false, Bool.true_and, Bool.false_eq_true, if_false,
          hmiss]
  · intro hnbl pb
    have hblt : rexists (rsetex (rdel (invalidate_user_sessions st current.id token)
        (.session token)) (.session newToken) (.sess current)
        (if current.is_admin then 900 else 8 * 3600)) (.blacklist newToken) =
        false := by
      rw [rexists_rsetex_ne (by simp : (RKey.session newToken) ≠ .blacklist newToken),
        rexists_rdel_ne (by simp : (RKey.session token) ≠ .blacklist newToken),
        rexists_invalidate_not_session
          (by simp : ∀ s : String, (RKey.blacklist newToken) ≠ .session s)]
      exact hnbl
    unfold verify_token
    simp only [hblt, Bool.not_false, Bool.true_and, Bool.false_eq_true, if_false,
      rget_rsetex_self]

set_option maxRecDepth 8000 in
theorem c2_witness :
    ((([⟨.session "tA", .sess ⟨"u1", "alice", "user", "inst", false⟩, some 28800⟩,
      ⟨.session "tB", .sess ⟨"u1", "alice", "user", "inst", false⟩, some 28800⟩,
      ⟨.session "tC", .sess ⟨"u2", "bob", "user", "inst", false⟩, some 28800⟩] :
        RedisState).map (fun e => e.key)).Nodup) ∧
    (change_password_route [1] [2] ⟨"u1", "alice", "user", "inst", false⟩ "tB"
      [⟨.session "tA", .sess ⟨"u1", "alice", "user", "inst", false⟩, some 28800⟩,
        ⟨.session "tB", .sess ⟨"u1", "alice", "user", "inst", false⟩, some 28800⟩,
        ⟨.session "tC", .sess ⟨"u2", "bob", "user", "inst", false⟩, some 28800⟩]
      ⟨some (b64encode [2],
        EncryptionManager.encrypt_data (b64encode [5])
          (EncryptionManager.derive_key_from_password [1] [2])
          (List.replicate 12 0)), true, some "tN"⟩
      [7] (List.replicate 12 1)).1 = .ok "tN" ∧
    verify_token "tA" false false
      (change_password_route [1] [2] ⟨"u1", "alice", "user", "inst", false⟩ "tB"
        [⟨.session "tA", .sess ⟨"u1", "alice", "user", "inst", false⟩, some 28800⟩,
          ⟨.session "tB", .sess ⟨"u1", "alice", "user", "inst", false⟩, some 28800⟩,
          ⟨.session "tC", .sess ⟨"u2", "bob", "user", "inst", false⟩, some 28800⟩]
        ⟨some (b64encode [2],
          EncryptionManager.encrypt_data (b64encode [5])
            (EncryptionManager.derive_key_from_password [1] [2])
            (List.replicate 12 0)), true, some "tN"⟩
        [7] (List.replicate 12 1)).2 .reject =
      (.err 401,
        (change_password_route [1] [2] ⟨"u1", "alice", "user", "inst", false⟩ "tB"
          [⟨.session "tA", .sess ⟨"u1", "alice", "user", "inst", false⟩, some 28800⟩,
            ⟨.session "tB", .sess ⟨"u1", "alice", "user", "inst", false⟩, some 28800⟩,
            ⟨.session "tC", .sess ⟨"u2", "bob", "user", "inst", false⟩, some 28800⟩]
          ⟨some (b64encode [2],
            EncryptionManager.encrypt_data (b64encode [5])
              (EncryptionManager.derive_key_from_password [1] [2])
              (List.replicate 12 0)), true, some "tN"⟩
          [7] (List.replicate 12 1)).2) ∧
    verify_token "tN" false false
      (change_password_route [1] [2] ⟨"u1", "alice", "user", "inst", false⟩ "tB"
        [⟨.session "tA", .sess ⟨"u1", "alice", "user", "inst", false⟩, some 28800⟩,
          ⟨.session "tB", .sess ⟨"u1", "alice", "user", "inst", false⟩, some 28800⟩,
          ⟨.session "tC", .sess ⟨"u2", "bob", "user", "inst", false⟩, some 28800⟩]
        ⟨some (b64encode [2],
          EncryptionManager.encrypt_data (b64encode [5])
            (EncryptionManager.derive_key_from_password [1] [2])
            (List.replicate 12 0)), true, some "tN"⟩
        [7] (List.replicate 12 1)).2 .reject =
      (.ok ⟨"u1", "alice", "user", "inst", false⟩ none,
        (change_password_route [1] [2] ⟨"u1", "alice", "user", "inst", false⟩ "tB"
          [⟨.session "tA", .sess ⟨"u1", "alice", "user", "inst", false⟩, some 28800⟩,
            ⟨.session "tB", .sess ⟨"u1", "alice", "user", "inst", false⟩, some 28800⟩,
            ⟨.session "tC", .sess ⟨"u2", "bob", "user", "inst", false⟩, some 28800⟩]
          ⟨some (b64encode [2],
            EncryptionManager.encrypt_data (b64encode [5])
              (EncryptionManager.derive_key_from_password [1] [2])
              (List.replicate 12 0)), true, some "tN"⟩
          [7] (List.replicate 12 1)).2) :=
  ⟨by decide,
    (c2_change_password_sessions [1] [2] ⟨"u1", "alice", "user", "inst", false⟩ "tB"
      [⟨.session "tA", .sess ⟨"u1", "alice", "user", "inst", false⟩, some 28800⟩,
        ⟨.session "tB", .sess ⟨"u1", "alice", "user", "inst", false⟩, some 28800⟩,
        ⟨.session "tC", .sess ⟨"u2", "bob", "user", "inst", false⟩, some 28800⟩]
      ⟨some (b64encode [2],
        EncryptionManager.encrypt_data (b64encode [5])
          (EncryptionManager.derive_key_from_password [1] [2])
          (List.replicate 12 0)), true, some "tN"⟩
      [7] (List.replicate 12 1)
      (b64encode [2])
      (EncryptionManager.encrypt_data (b64encode [5])
        (EncryptionManager.derive_key_from_password [1] [2])
        (List.replicate 12 0))
      [5] "tN" rfl (by decide) rfl rfl (by decide) (by decide) (by decide)
      (by decide) (by decide)).1,
    (c2_change_password_sessions [1] [2] ⟨"u1", "alice", "user", "inst", false⟩ "tB"
      [⟨.session "tA", .sess ⟨"u1", "alice", "user", "inst", false⟩, some 28800⟩,
        ⟨.session "tB", .sess ⟨"u1", "alice", "user", "inst", false⟩, some 28800⟩,
        ⟨.session "tC", .sess ⟨"u2", "bob", "user", "inst", false⟩, some 28800⟩]
      ⟨some (b64encode [2],
        EncryptionManager.encrypt_data (b64encode [5])
          (EncryptionManager.derive_key_from_password [1] [2])
          (List.replicate 12 0)), true, some "tN"⟩
      [7] (List.replicate 12 1)
      (b64encode [2])
      (EncryptionManager.encrypt_data (b64encode [5])
        (EncryptionManager.derive_key_from_password [1] [2])
        (List.replicate 12 0))
      [5] "tN" rfl (by decide) rfl rfl (by decide) (by decide) (by decide)
      (by decide) (by decide)).2.2.2.2.1 "tA"
      ⟨"u1", "alice", "user", "inst", false⟩ (by decide) (by decide) (by decide),
    (c2_change_password_sessions [1] [2] ⟨"u1", "alice", "user", "inst", false⟩ "tB"
      [⟨.session "tA", .sess ⟨"u1", "alice", "user", "inst", false⟩, some 28800⟩,
        ⟨.session "tB", .sess ⟨"u1", "alice", "user", "inst", false⟩, some 28800⟩,
        ⟨.session "tC", .sess ⟨"u2", "bob", "user", "inst", false⟩, some 28800⟩]
      ⟨some (b64encode [2],
        EncryptionManager.encrypt_data (b64encode [5])
          (EncryptionManager.derive_key_from_password [1] [2])
          (List.replicate 12 0)), true, some "tN"⟩
      [7] (List.replicate 12 1)
      (b64encode [2])
      (EncryptionManager.encrypt_data (b64encode [5])
        (EncryptionManager.derive_key_from_password [1] [2])
        (List.replicate 12 0))
      [5] "tN" rfl (by decide) rfl rfl (by decide) (by decide) (by decide)
      (by decide) (by decide)).2.2.2.2.2 (by decide) .reject⟩

set_option maxRecDepth 8000 in
/-- C3 counterexample: the claim is false as stated — a subsystem operation
does remove a blacklisted token before its expiry: after `logout` blacklists
token `"t"`, a successful `login` for which PocketBase reuses the same token
deletes the blacklist entry (auth.py lines 658-661), and the token validates
successfully again. -/
theorem c3_counterexample :
    rexists (logout_user "t" []) (.blacklist "t") = true ∧
    rexists ((login_user "alice" [1] false "ip" (logout_user "t" [])
      (some ("t", ⟨"u1", "alice", "user", "inst", b64encode [2],
        EncryptionManager.encrypt_data (b64encode [5])
          (EncryptionManager.derive_key_from_password [1] [2])
          (List.replicate 12 0)⟩))).2) (.blacklist "t") = false ∧
    (verify_token "t" false false
      ((login_user "alice" [1] false "ip" (logout_user "t" [])
        (some ("t", ⟨"u1", "alice", "user", "inst", b64encode [2],
          EncryptionManager.encrypt_data (b64encode [5])
            (EncryptionManager.derive_key_from_password [1] [2])
            (List.replicate 12 0)⟩))).2) .reject).1 =
      .ok ⟨"u1", "alice", "user", "inst", false⟩ none :=
  ⟨by decide, by decide, by decide⟩

end Priotag
